import Mathlib

set_option maxHeartbeats 1000000

/-!
Verification of the sqlfluff-sqlmesh templater core
(src/sqlfluff_templater_sqlmesh/templater.py) against its specification.

The embedding below translates the two core functions,
`_process_select_statement` and `_process_sql_script`, into executable Lean
definitions.  Strings are `List Char` (Python `str` indexing and slicing is
over characters); Python `s[a:b]` becomes `pySlice`; the mutable local state
of the character scan (`output`, `pos`, `tpl_pos`, `raw_slices`,
`tpl_slices`, and the open-slice registers of `_start_new_slice` /
`_end_current_slice`) becomes the record `PState` threaded through a
fuel-indexed loop (the fuel bound `s.length - pos` is exact because every
iteration strictly advances `pos`, which is proved below).  The sqlglot
tokenizer is external to the repository; following the specification it is
treated as a black box, so `_process_sql_script` is parameterised by the
token list it returns.  sqlglot tokens carry an inclusive `end` index (the
index of the token's last character), which the code uses directly.
-/

/-- Python `s[a:b]` for `0 ≤ a, b` (clamping, and empty when `b < a`). -/
def pySlice (s : List Char) (a b : Nat) : List Char :=
  (s.drop a).take (b - a)

/-- Python `str.isalnum`, modelled exactly on code points below `0x100`:
ASCII letters and digits, and the Latin-1 letters and numeric characters
(`ª²³µ¹º¼½¾`, `À`–`ÿ` except `×` and `÷`).  Code points at `0x100` and above
are treated as non-alphanumeric; no theorem below evaluates the predicate
there. -/
def pyIsAlnum (c : Char) : Bool :=
  c.isAlphanum ||
    (let n := c.toNat
     n == 0xAA || n == 0xB2 || n == 0xB3 || n == 0xB5 || n == 0xB9 ||
       n == 0xBA || n == 0xBC || n == 0xBD || n == 0xBE ||
       (0xC0 ≤ n && n ≤ 0xFF && n != 0xD7 && n != 0xF7))

/-- Python `str.isspace`, modelled exactly on code points below `0x100`. -/
def pyIsSpace (c : Char) : Bool :=
  let n := c.toNat
  n == 0x20 || (0x09 ≤ n && n ≤ 0x0D) || (0x1C ≤ n && n ≤ 0x1F) ||
    n == 0x85 || n == 0xA0

/-- The identifier test of the scan: `s[pos].isalnum() or s[pos] == "_"`. -/
def isIdentChar (c : Char) : Bool :=
  pyIsAlnum c || c == '_'

def placeholderString : String := "'PLACEHOLDER'"

/-- The fixed placeholder substituted for macro call arguments. -/
def PLACEHOLDER : List Char := placeholderString.data

/-- Slice kinds: the code uses the strings `"literal"` and `"templated"`. -/
inductive SliceType where
  | literal
  | templated
deriving DecidableEq, Repr

/-- sqlfluff's `RawFileSlice` as used by the templater. -/
structure RawFileSlice where
  raw : List Char
  slice_type : SliceType
  source_idx : Nat
deriving DecidableEq, Repr

/-- sqlfluff's `TemplatedFileSlice`; both slices are half-open `(start, stop)`
pairs, as built by Python `slice(a, b)` in the code. -/
structure TemplatedFileSlice where
  slice_type : SliceType
  source_slice : Nat × Nat
  templated_slice : Nat × Nat
deriving DecidableEq, Repr

/-- The mutable locals of `_process_select_statement`: `output`, `pos`,
`tpl_pos`, `raw_slices`, `tpl_slices`, and the three `current_*` registers
(bundled as `current`; `_start_new_slice` only ever opens `"literal"`
slices, but the type is kept as in the code). -/
structure PState where
  output : List Char
  pos : Nat
  tplPos : Nat
  rawSlices : List RawFileSlice
  tplSlices : List TemplatedFileSlice
  current : Option (SliceType × Nat × Nat)
deriving DecidableEq, Repr

/-- `_end_current_slice(source_idx, templated_idx)`: if a slice is open,
append the raw text `select_statement[current_raw_slice_start - select_start
: source_idx - select_start]` as a `RawFileSlice` and the matching
`TemplatedFileSlice`, and clear the registers. -/
def endCurrentSlice (s : List Char) (base : Nat) (st : PState)
    (sourceIdx tplIdx : Nat) : PState :=
  match st.current with
  | none => st
  | some (ty, rs, ts) =>
    { st with
      rawSlices := st.rawSlices ++
        [{ raw := pySlice s (rs - base) (sourceIdx - base),
           slice_type := ty, source_idx := rs }],
      tplSlices := st.tplSlices ++
        [{ slice_type := ty, source_slice := (rs, sourceIdx),
           templated_slice := (ts, tplIdx) }],
      current := none }

/-- The `c == "@"` branch up to `_start_new_slice("literal", source_idx + 1,
tpl_pos)`: close any open slice at the `@`, record the zero-rendered-length
slice for the `@` character itself, skip it, and open a literal run just
after it. -/
def emitAt (s : List Char) (base : Nat) (st : PState) : PState :=
  let sourceIdx := base + st.pos
  let st1 := endCurrentSlice s base st sourceIdx st.tplPos
  { st1 with
    rawSlices := st1.rawSlices ++
      [{ raw := ['@'], slice_type := .templated, source_idx := sourceIdx }],
    tplSlices := st1.tplSlices ++
      [{ slice_type := .templated,
         source_slice := (sourceIdx, sourceIdx + 1),
         templated_slice := (st.tplPos, st.tplPos) }],
    pos := st.pos + 1,
    current := some (.literal, sourceIdx + 1, st.tplPos) }

/-- The identifier-collecting loop after `@`: copy the maximal run of
identifier characters into the output. -/
def copyIdent (s : List Char) (st : PState) : PState :=
  let ident := (s.drop st.pos).takeWhile isIdentChar
  { st with
    output := st.output ++ ident,
    tplPos := st.tplPos + ident.length,
    pos := st.pos + ident.length }

/-- The whitespace-collecting loop after the identifier. -/
def copyWs (s : List Char) (st : PState) : PState :=
  let ws := (s.drop st.pos).takeWhile pyIsSpace
  { st with
    output := st.output ++ ws,
    tplPos := st.tplPos + ws.length,
    pos := st.pos + ws.length }

/-- The function-call test `pos < len(select_statement) and
select_statement[pos] == "("`. -/
def isFuncCall (s : List Char) (pos : Nat) : Bool :=
  decide (pos < s.length) && (s.getD pos ' ' == '(')

/-- The nested-parenthesis counter: `while pos < len(select_statement) and
paren_count > 0: ...; pos += 1`, fuel-indexed.  The fuel bound
`s.length - pos` is exact since `pos` advances by one every iteration. -/
def scanParenF : Nat → List Char → Nat → Nat → Nat
  | 0, _, pos, _ => pos
  | fuel + 1, s, pos, depth =>
    if pos < s.length && 0 < depth then
      scanParenF fuel s (pos + 1)
        (if s.getD pos ' ' == '(' then depth + 1
         else if s.getD pos ' ' == ')' then depth - 1 else depth)
    else pos

/-- Final `pos` of the nested-parenthesis loop started at `pos` with
`paren_count = depth`. -/
def scanParen (s : List Char) (pos depth : Nat) : Nat :=
  scanParenF (s.length - pos) s pos depth

/-- The function-argument branch, entered with `st.pos` just past the `(`:
close the literal run, replace the argument bytes
`[func_args_start, func_args_end)` with the placeholder, then reopen a
literal run at the closing parenthesis `func_args_end = pos - 1` and copy
`select_statement[func_args_end]` into the output. -/
def emitArgs (s : List Char) (base : Nat) (st : PState) : PState :=
  let st1 := endCurrentSlice s base st (base + st.pos) st.tplPos
  let funcArgsStart := st1.pos
  let funcArgsEnd := scanParen s funcArgsStart 1 - 1
  let st2 : PState :=
    { st1 with
      rawSlices := st1.rawSlices ++
        [{ raw := pySlice s funcArgsStart funcArgsEnd,
           slice_type := .templated, source_idx := base + funcArgsStart }],
      tplSlices := st1.tplSlices ++
        [{ slice_type := .templated,
           source_slice := (base + funcArgsStart, base + funcArgsEnd),
           templated_slice := (st1.tplPos, st1.tplPos + PLACEHOLDER.length) }],
      output := st1.output ++ PLACEHOLDER,
      tplPos := st1.tplPos + PLACEHOLDER.length }
  { st2 with
    current := some (.literal, base + funcArgsEnd, st2.tplPos),
    output := st2.output ++ [s.getD funcArgsEnd ' '],
    tplPos := st2.tplPos + 1,
    pos := funcArgsEnd + 1 }

/-- One iteration of the scan at an `@` character. -/
def stepAt (s : List Char) (base : Nat) (st : PState) : PState :=
  let st4 := copyWs s (copyIdent s (emitAt s base st))
  if isFuncCall s st4.pos then
    emitArgs s base
      ({ st4 with
         output := st4.output ++ ['('],
         tplPos := st4.tplPos + 1,
         pos := st4.pos + 1 } : PState)
  else st4

/-- One iteration of the scan at a regular character: ensure a literal run
is open and copy the character. -/
def stepChar (s : List Char) (base : Nat) (st : PState) : PState :=
  let st1 :=
    if st.current.map (fun x => x.1) = some SliceType.literal then st
    else { st with current := some (.literal, base + st.pos, st.tplPos) }
  { st1 with
    output := st1.output ++ [s.getD st.pos ' '],
    tplPos := st1.tplPos + 1,
    pos := st1.pos + 1 }

/-- One iteration of the `while pos < len(select_statement)` loop. -/
def procStep (s : List Char) (base : Nat) (st : PState) : PState :=
  if s.getD st.pos ' ' == '@' then stepAt s base st else stepChar s base st

/-- The cursor after one iteration, as a function of `s` and `pos` alone. -/
def stepPos (s : List Char) (pos : Nat) : Nat :=
  if s.getD pos ' ' == '@' then
    let p1 := (pos + 1 + ((s.drop (pos + 1)).takeWhile isIdentChar).length)
    let p2 := p1 + ((s.drop p1).takeWhile pyIsSpace).length
    if isFuncCall s p2 then scanParen s (p2 + 1) 1 - 1 + 1 else p2
  else pos + 1

/-- The main scan loop, fuel-indexed; `s.length - pos` fuel is enough
because every iteration strictly advances `pos`. -/
def processLoopF : Nat → List Char → Nat → PState → PState
  | 0, _, _, st => st
  | fuel + 1, s, base, st =>
    if st.pos < s.length then processLoopF fuel s base (procStep s base st)
    else st

/-- The main scan loop of `_process_select_statement`. -/
def processLoop (s : List Char) (base : Nat) (st : PState) : PState :=
  processLoopF (s.length - st.pos) s base st

/-- The initial state of the scan. -/
def initState : PState :=
  { output := [], pos := 0, tplPos := 0, rawSlices := [], tplSlices := [],
    current := none }

/-- `_process_select_statement(select_statement, select_start)`: run the
scan, close any remaining slice at `select_start + pos`, and return
`("".join(output), raw_slices, tpl_slices)`. -/
def processSelectStatement (s : List Char) (base : Nat) :
    List Char × List RawFileSlice × List TemplatedFileSlice :=
  let fin := processLoop s base initState
  let fin2 := endCurrentSlice s base fin (base + fin.pos) fin.tplPos
  (fin2.output, fin2.rawSlices, fin2.tplSlices)

/-- The token kinds the script processor inspects; every other sqlglot
token kind behaves like `OTHER`. -/
inductive TokenType where
  | SELECT
  | SEMICOLON
  | OTHER
deriving DecidableEq, Repr

/-- A sqlglot token: `token_type`, `start`, and `end` (`tokEnd` here; in
sqlglot `end` is the index of the token's last character, inclusive). -/
structure Token where
  token_type : TokenType
  start : Nat
  tokEnd : Nat
deriving DecidableEq, Repr

/-- The scan for the first `SEMICOLON` token after the `SELECT` was
discovered; returns its `end`. -/
def findSemi : List Token → Option Nat
  | [] => none
  | tok :: rest =>
    if tok.token_type = TokenType.SEMICOLON then some tok.tokEnd
    else findSemi rest

/-- The statement-bounding loop of `_process_sql_script`: the first
`SELECT` token fixes `select_start_pos`; the first `SEMICOLON` token after
it (if any) fixes `select_end_pos`. -/
def boundStatement : List Token → Option (Nat × Option Nat)
  | [] => none
  | tok :: rest =>
    if tok.token_type = TokenType.SELECT then some (tok.start, findSemi rest)
    else boundStatement rest

/-- The result record handed to sqlfluff's `TemplatedFile`. -/
structure TemplatedFile where
  source_str : List Char
  templated_str : List Char
  sliced_file : List TemplatedFileSlice
  raw_sliced : List RawFileSlice
deriving DecidableEq, Repr

def noSelectMsg : String := "No SELECT statement found in file"

/-- `_process_sql_script(input_str, dialect=...)`, parameterised by the
token list the sqlglot tokenizer returns for `input_str` (the tokenizer is
outside the repository).  `SQLFluffSkipFile` becomes the `error` case; the
slice assembly (pre-region slice when `select_start_pos > 0`, the region's
slices, post-region slice when `select_end_pos < len(input_str)`) follows
the code line by line. -/
def processSqlScript (input : List Char) (tokens : List Token) :
    Except String TemplatedFile :=
  match boundStatement tokens with
  | none => Except.error noSelectMsg
  | some (selectStart, semiEnd) =>
    let selectEnd :=
      match semiEnd with
      | some e => e
      | none => input.length
    let stmt := pySlice input selectStart selectEnd
    let res := processSelectStatement stmt selectStart
    let preRaw : List RawFileSlice :=
      if 0 < selectStart then
        [{ raw := pySlice input 0 selectStart, slice_type := .templated,
           source_idx := 0 }]
      else []
    let pre : List TemplatedFileSlice :=
      if 0 < selectStart then
        [{ slice_type := .templated, source_slice := (0, selectStart),
           templated_slice := (0, 0) }]
      else []
    let templatedPos := res.1.length
    let postRaw : List RawFileSlice :=
      if selectEnd < input.length then
        [{ raw := pySlice input selectEnd input.length,
           slice_type := .templated, source_idx := selectEnd }]
      else []
    let post : List TemplatedFileSlice :=
      if selectEnd < input.length then
        [{ slice_type := .templated,
           source_slice := (selectEnd, input.length),
           templated_slice := (templatedPos, templatedPos) }]
      else []
    Except.ok
      { source_str := input,
        templated_str := res.1,
        sliced_file := pre ++ res.2.2 ++ post,
        raw_sliced := preRaw ++ res.2.1 ++ postRaw }

/-- Contiguous, non-negative coverage: the ranges start at `start`, each
begins where the previous ended, and the last ends at `stop`. -/
def chainFrom (start : Nat) (ranges : List (Nat × Nat)) (stop : Nat) : Bool :=
  match ranges with
  | [] => start == stop
  | (a, b) :: rest => a == start && Nat.ble a b && chainFrom b rest stop

/-- Well-formedness of the bounds the tokenizer produced for `input`:
whenever a statement is bounded, `select_start ≤ select_end ≤ len(input)`.
The real tokenizer only emits in-bounds, ordered tokens, so this holds for
every token list it returns. -/
def boundsWF (input : List Char) (tokens : List Token) : Bool :=
  match boundStatement tokens with
  | none => true
  | some (selectStart, semiEnd) =>
    let selectEnd := semiEnd.getD input.length
    Nat.ble selectStart selectEnd && Nat.ble selectEnd input.length

/-- One step of the scan is degenerate when it enters the function-call
branch with the argument scan starting at end of input (the macro's `(` is
the region's last character): the parenthesis loop then runs zero
iterations and `func_args_end = pos - 1` falls back onto the `(` itself. -/
def stepDegen (s : List Char) (pos : Nat) : Bool :=
  if s.getD pos ' ' == '@' then
    let p1 := (pos + 1 + ((s.drop (pos + 1)).takeWhile isIdentChar).length)
    let p2 := p1 + ((s.drop p1).takeWhile pyIsSpace).length
    isFuncCall s p2 && (p2 + 1 == s.length)
  else false

/-- No iteration of the scan started at `pos` is degenerate
(fuel-indexed). -/
def degenFreeF : Nat → List Char → Nat → Bool
  | 0, _, _ => true
  | fuel + 1, s, pos =>
    if pos < s.length then
      !stepDegen s pos && degenFreeF fuel s (stepPos s pos)
    else true

/-- No iteration of the scan of `s` started at `pos` is degenerate. -/
def degenFree (s : List Char) (pos : Nat) : Bool :=
  degenFreeF (s.length - pos) s pos

/-- The `TemplatedFile` of a successful render (`d` for the error case). -/
def getOk (r : Except String TemplatedFile) (d : TemplatedFile) :
    TemplatedFile :=
  match r with
  | Except.ok tf => tf
  | Except.error _ => d

def emptyTF : TemplatedFile :=
  { source_str := [], templated_str := [], sliced_file := [], raw_sliced := [] }

/-! ## Concrete inputs used by the claims -/

/-- ASCII identifier characters: Lean's `Char.isAlphanum` is exactly the
ASCII letters and digits.  This is the reading of "ASCII alphanumeric or
underscore" in the specification's identifier rule. -/
def asciiIdentChar (c : Char) : Bool :=
  c.isAlphanum || c == '_'

def cx1str : String := "SELECT @f("

def cx1src : List Char := cx1str.data

def cx1toks : List Token :=
  [{ token_type := .SELECT, start := 0, tokEnd := 5 }]

def cx1tf : TemplatedFile := getOk (processSqlScript cx1src cx1toks) emptyTF

def cx2str : String := "SELECT @foo() AS x;"

def cx2src : List Char := cx2str.data

def cx2toks : List Token :=
  [{ token_type := .SELECT, start := 0, tokEnd := 5 },
   { token_type := .OTHER, start := 8, tokEnd := 10 },
   { token_type := .OTHER, start := 14, tokEnd := 15 },
   { token_type := .OTHER, start := 17, tokEnd := 17 },
   { token_type := .SEMICOLON, start := 18, tokEnd := 18 }]

def cx2claimStr : String := "SELECT 'PLACEHOLDER' AS x"

def cx2actualStr : String := "SELECT foo('PLACEHOLDER') AS x"

def cx2tf : TemplatedFile := getOk (processSqlScript cx2src cx2toks) emptyTF

def cx3str : String := "SELECT @f(a, b"

def cx3src : List Char := cx3str.data

def cx3toks : List Token :=
  [{ token_type := .SELECT, start := 0, tokEnd := 5 }]

def cx3outStr : String := "SELECT f('PLACEHOLDER'b"

def cx3tf : TemplatedFile := getOk (processSqlScript cx3src cx3toks) emptyTF

def cx7str : String := "@é1"

def cx7src : List Char := cx7str.data

def cx7st : PState :=
  { output := [], pos := 1, tplPos := 0, rawSlices := [], tplSlices := [],
    current := some (.literal, 1, 0) }

def cx8str : String := "SELECT @f('PLACEHOLDER')"

def cx8src : List Char := cx8str.data

def cx8toks : List Token :=
  [{ token_type := .SELECT, start := 0, tokEnd := 5 }]

def cx8tf : TemplatedFile := getOk (processSqlScript cx8src cx8toks) emptyTF

def cx10str : String := "SELECT @foo() AS x"

def cx10src : List Char := cx10str.data

/-! ## Concrete (counter)example theorems -/

/-- C1 (counterexample): on `"SELECT @f("` (a macro whose `(` ends the
bounded region) the render returns successfully, yet the source ranges of
the mapped slices do not cover `[0, len(source_text))` contiguously
(slices `(10, 9)` and `(9, 10)` appear after `(8, 10)`), and concatenating
the raw slices' text gives `"SELECT @f(("`, not the source text. -/
theorem c1_counterexample :
    (processSqlScript cx1src cx1toks).toOption.isSome = true
    ∧ chainFrom 0 (cx1tf.sliced_file.map (fun sl => sl.source_slice))
        cx1tf.source_str.length = false
    ∧ (cx1tf.raw_sliced.map (fun sl => sl.raw)).flatten ≠ cx1tf.source_str := by
  decide

/-- C2 (counterexample): on `"SELECT @foo() AS x;"` with SELECT and `;`
tokenized normally, the rendered text is not `"SELECT 'PLACEHOLDER' AS x"`
— the macro identifier and its parentheses are preserved, so the actual
output is `"SELECT foo('PLACEHOLDER') AS x"`. -/
theorem c2_counterexample :
    cx2tf.templated_str ≠ cx2claimStr.data := by
  decide

/-- C2 (amended): the same input renders successfully to
`"SELECT foo('PLACEHOLDER') AS x"` (the trailing `;` is still absent:
`select_end_pos` is the semicolon token's inclusive `end` index, so the
bounded region stops just before the `;`). -/
theorem c2_amended :
    processSqlScript cx2src cx2toks = Except.ok cx2tf
    ∧ cx2tf.templated_str = cx2actualStr.data := by
  exact ⟨rfl, by decide⟩

/-- C3 (counterexample): on `"SELECT @f(a, b"` the function-call macro's
parenthesis never returns to depth 0, yet the render returns successfully
instead of raising any error — no `MalformedMacroArguments` condition
exists in the code. -/
theorem c3_counterexample :
    (processSqlScript cx3src cx3toks).toOption.isSome = true := by
  decide

/-- C3 (amended): on an unterminated function-call macro the scan stops at
end of input and silently truncates: the last character consumed is treated
as if it were the closing parenthesis, and a result is returned — here
`"SELECT @f(a, b"` renders to `"SELECT f('PLACEHOLDER'b"`. -/
theorem c3_amended :
    processSqlScript cx3src cx3toks = Except.ok cx3tf
    ∧ cx3tf.templated_str = cx3outStr.data := by
  exact ⟨rfl, by decide⟩

/-- C7 (counterexample): at position 1 of `"@é1"` (immediately after the
`@`) the scanner consumes two characters, `é` and `1`, as the macro
identifier — but `é` (U+00E9, for which Python's Unicode-aware
`str.isalnum` returns true) is not ASCII alphanumeric and not underscore,
so the consumed run is not the maximal ASCII run (which is empty). -/
theorem c7_counterexample :
    (copyIdent cx7src cx7st).pos = 3
    ∧ isIdentChar (cx7src.getD 1 ' ') = true
    ∧ asciiIdentChar (cx7src.getD 1 ' ') = false
    ∧ (cx7src.drop 1).takeWhile isIdentChar ≠
        (cx7src.drop 1).takeWhile asciiIdentChar := by
  decide

/-- C8 (counterexample): on `"SELECT @f('PLACEHOLDER')"` the render
succeeds and produces a GENERATED (templated) mapped slice with nonzero
rendered length — the argument-list slice, source range `(10, 23)`,
rendered range `(9, 22)` — whose rendered bytes are exactly the source
bytes `'PLACEHOLDER'`: a verbatim copy, contradicting the claim. -/
theorem c8_counterexample :
    (processSqlScript cx8src cx8toks).toOption.isSome = true
    ∧ ({ slice_type := .templated, source_slice := (10, 23),
         templated_slice := (9, 22) } : TemplatedFileSlice) ∈ cx8tf.sliced_file
    ∧ (9 : Nat) < 22
    ∧ pySlice cx8tf.templated_str 9 22 = pySlice cx8tf.source_str 10 23 := by
  decide

/-- C10: `_process_select_statement` applied to `"SELECT @foo() AS x"` with
starting offset 0 returns the rendered text
`"SELECT foo('PLACEHOLDER') AS x"`; the empty argument list yields the
GENERATED slice with empty source range `(12, 12)` and rendered range
`(11, 24)` of length 13 (the placeholder's length); identifier and
parentheses are preserved in literal slices. -/
theorem c10_empty_args :
    processSelectStatement cx10src 0 =
      (cx2actualStr.data,
       [{ raw := ("SELECT " : String).data, slice_type := .literal,
          source_idx := 0 },
        { raw := ['@'], slice_type := .templated, source_idx := 7 },
        { raw := ("foo(" : String).data, slice_type := .literal,
          source_idx := 8 },
        { raw := [], slice_type := .templated, source_idx := 12 },
        { raw := (") AS x" : String).data, slice_type := .literal,
          source_idx := 12 }],
       [{ slice_type := .literal, source_slice := (0, 7),
          templated_slice := (0, 7) },
        { slice_type := .templated, source_slice := (7, 8),
          templated_slice := (7, 7) },
        { slice_type := .literal, source_slice := (8, 12),
          templated_slice := (7, 11) },
        { slice_type := .templated, source_slice := (12, 12),
          templated_slice := (11, 24) },
        { slice_type := .literal, source_slice := (12, 18),
          templated_slice := (24, 30) }]) := by
  decide

/-! ## Slicing toolkit -/

theorem pySlice_len (s : List Char) (a b : Nat) (hb : b ≤ s.length) :
    (pySlice s a b).length = b - a := by
  simp only [pySlice, List.length_take, List.length_drop]
  omega

theorem pySlice_nil (s : List Char) (a b : Nat) (h : b ≤ a) :
    pySlice s a b = [] := by
  simp only [pySlice, Nat.sub_eq_zero_of_le h, List.take_zero]

theorem pySlice_all (s : List Char) : pySlice s 0 s.length = s := by
  simp [pySlice]

theorem pySlice_drop (s : List Char) (a : Nat) :
    pySlice s a s.length = s.drop a := by
  simp only [pySlice]
  exact List.take_of_length_le (by simp)

theorem pySlice_split (s : List Char) (a b c : Nat) (hab : a ≤ b) (hbc : b ≤ c) :
    pySlice s a c = pySlice s a b ++ pySlice s b c := by
  unfold pySlice
  rw [show c - a = (b - a) + (c - b) by omega, List.take_add, List.drop_drop,
    show a + (b - a) = b by omega]

theorem getD_drop_eq (s : List Char) (m n : Nat) (d : Char) :
    (s.drop m).getD n d = s.getD (m + n) d := by
  simp [List.getD_eq_getElem?_getD, List.getElem?_drop]

theorem pySlice_one (s : List Char) (i : Nat) (d : Char) (h : i < s.length) :
    pySlice s i (i + 1) = [s.getD i d] := by
  unfold pySlice
  rw [show i + 1 - i = 1 by omega, List.drop_eq_getElem_cons h, List.take_one]
  simp [List.getD_eq_getElem?_getD, List.getElem?_eq_getElem h]

theorem pySlice_append_right (l u : List Char) (a b : Nat) (hb : b ≤ l.length) :
    pySlice (l ++ u) a b = pySlice l a b := by
  rcases le_or_lt a l.length with ha | ha
  · unfold pySlice
    rw [List.drop_append_of_le_length ha]
    exact List.take_append_of_le_length (by simp; omega)
  · rw [pySlice_nil _ _ _ (by omega), pySlice_nil _ _ _ (by omega)]

theorem pySlice_after (l u : List Char) :
    pySlice (l ++ u) l.length (l.length + u.length) = u := by
  unfold pySlice
  rw [List.drop_left, show l.length + u.length - l.length = u.length by omega]
  exact List.take_length u

theorem drop_append_all (l u : List Char) : (l ++ u).drop l.length = u :=
  List.drop_left ..

/-- Restricting a slice of a slice: for `base ≤ a` and `b ≤ e`,
`pySlice (pySlice s base e) (a - base) (b - base) = pySlice s a b`. -/
theorem pySlice_pySlice (s : List Char) (base e a b : Nat)
    (hba : base ≤ a) (hbe : b ≤ e) :
    pySlice (pySlice s base e) (a - base) (b - base) = pySlice s a b := by
  unfold pySlice
  rw [List.drop_take, List.drop_drop, show base + (a - base) = a by omega,
    List.take_take, show e - base - (a - base) = e - a by omega,
    show b - base - (a - base) = b - a by omega,
    Nat.min_eq_left (by omega)]

theorem takeWhile_eq_take (p : Char → Bool) (l : List Char) :
    l.takeWhile p = l.take (l.takeWhile p).length := by
  have ht : l = l.takeWhile p ++ l.dropWhile p :=
    (List.takeWhile_append_dropWhile ..).symm
  nth_rewrite 3 [ht]
  rw [List.take_left]

theorem takeWhile_drop_pySlice (p : Char → Bool) (s : List Char) (pos : Nat) :
    (s.drop pos).takeWhile p
      = pySlice s pos (pos + ((s.drop pos).takeWhile p).length) := by
  unfold pySlice
  rw [show pos + ((s.drop pos).takeWhile p).length - pos
    = ((s.drop pos).takeWhile p).length by omega]
  exact takeWhile_eq_take p (s.drop pos)

theorem takeWhile_length_le (p : Char → Bool) (l : List Char) :
    (l.takeWhile p).length ≤ l.length := by
  have ht := congrArg List.length (List.takeWhile_append_dropWhile (p := p) (l := l))
  simp only [List.length_append] at ht
  omega

theorem takeWhile_sat (p : Char → Bool) (l : List Char) (d : Char) :
    (∀ j, j < (l.takeWhile p).length → p (l.getD j d) = true) := by
  induction l with
  | nil => intro j hj; simp at hj
  | cons a t ih =>
    intro j hj
    by_cases hp : p a
    · rw [List.takeWhile_cons_of_pos hp] at hj
      cases j with
      | zero => simpa [List.getD] using hp
      | succ k => exact ih k (by simpa using hj)
    · rw [List.takeWhile_cons_of_neg hp] at hj
      simp at hj

theorem takeWhile_stop (p : Char → Bool) (l : List Char) (d : Char)
    (h : (l.takeWhile p).length < l.length) :
    p (l.getD (l.takeWhile p).length d) = false := by
  induction l with
  | nil => simp at h
  | cons a t ih =>
    by_cases hp : p a
    · rw [List.takeWhile_cons_of_pos hp] at h ⊢
      simpa using ih (by simpa using h)
    · rw [List.takeWhile_cons_of_neg hp]
      simpa [List.getD] using hp

/-! ## Chain-coverage toolkit -/

theorem chainFrom_nil (a b : Nat) : chainFrom a [] b = true ↔ a = b := by
  simp [chainFrom]

theorem chainFrom_cons (a b : Nat) (x : Nat × Nat) (l : List (Nat × Nat)) :
    chainFrom a (x :: l) b = true ↔
      x.1 = a ∧ x.1 ≤ x.2 ∧ chainFrom x.2 l b = true := by
  obtain ⟨u, v⟩ := x
  simp only [chainFrom, Bool.and_eq_true, beq_iff_eq, Nat.ble_eq, and_assoc]

theorem chainFrom_le (l : List (Nat × Nat)) :
    ∀ a b, chainFrom a l b = true → a ≤ b := by
  induction l with
  | nil => intro a b h; rw [chainFrom_nil] at h; omega
  | cons x t ih =>
    intro a b h
    rw [chainFrom_cons] at h
    have := ih x.2 b h.2.2
    omega

theorem chainFrom_append (l1 l2 : List (Nat × Nat)) :
    ∀ a b c, chainFrom a l1 b = true → chainFrom b l2 c = true →
      chainFrom a (l1 ++ l2) c = true := by
  induction l1 with
  | nil =>
    intro a b c h1 h2
    rw [chainFrom_nil] at h1
    simpa [h1] using h2
  | cons x t ih =>
    intro a b c h1 h2
    rw [chainFrom_cons] at h1
    rw [List.cons_append, chainFrom_cons]
    exact ⟨h1.1, h1.2.1, ih _ _ _ h1.2.2 h2⟩

theorem chainFrom_snoc (l : List (Nat × Nat)) (a b c : Nat)
    (h : chainFrom a l b = true) (hbc : b ≤ c) :
    chainFrom a (l ++ [(b, c)]) c = true := by
  refine chainFrom_append l [(b, c)] a b c h ?_
  rw [chainFrom_cons]
  exact ⟨rfl, hbc, by rw [chainFrom_nil]⟩

/-- Concatenating the texts of a chain of slices of `s` from `a` to `b`
reproduces `pySlice s a b`. -/
theorem chainFrom_flatten (s : List Char) (l : List (Nat × Nat)) :
    ∀ a b, chainFrom a l b = true → b ≤ s.length →
      ((l.map (fun r => pySlice s r.1 r.2)).flatten) = pySlice s a b := by
  induction l with
  | nil =>
    intro a b h _
    rw [chainFrom_nil] at h
    simp [pySlice_nil s a b (by omega)]
  | cons x t ih =>
    intro a b h hb
    rw [chainFrom_cons] at h
    have hyb : x.2 ≤ b := chainFrom_le t x.2 b h.2.2
    simp only [List.map_cons, List.flatten_cons, ih x.2 b h.2.2 hb]
    rw [h.1, ← pySlice_split s a x.2 b (h.1 ▸ h.2.1) hyb]

/-! ## Cursor arithmetic of the scan -/

theorem scanParenF_ge : ∀ (f : Nat) (s : List Char) (pos d : Nat),
    pos ≤ scanParenF f s pos d := by
  intro f
  induction f with
  | zero => intro s pos d; exact Nat.le_refl _
  | succ g ih =>
    intro s pos d
    simp only [scanParenF]
    split
    · exact Nat.le_trans (Nat.le_succ pos) (ih ..)
    · exact Nat.le_refl _

theorem scanParenF_le : ∀ (f : Nat) (s : List Char) (pos d : Nat),
    pos ≤ s.length → scanParenF f s pos d ≤ s.length := by
  intro f
  induction f with
  | zero => intro s pos d h; exact h
  | succ g ih =>
    intro s pos d h
    simp only [scanParenF]
    split
    · next hc =>
      simp only [Bool.and_eq_true, decide_eq_true_eq] at hc
      exact ih s (pos + 1) _ (by omega)
    · exact h

theorem scanParen_ge (s : List Char) (pos d : Nat) : pos ≤ scanParen s pos d :=
  scanParenF_ge ..

theorem scanParen_le (s : List Char) (pos d : Nat) (h : pos ≤ s.length) :
    scanParen s pos d ≤ s.length :=
  scanParenF_le _ s pos d h

theorem scanParen_succ (s : List Char) (pos d : Nat) (h : pos < s.length)
    (hd : 0 < d) : pos + 1 ≤ scanParen s pos d := by
  unfold scanParen
  rw [show s.length - pos = (s.length - (pos + 1)) + 1 by omega]
  simp only [scanParenF]
  rw [if_pos (by simp [h, hd])]
  exact scanParenF_ge ..

theorem seg_end_le (p : Char → Bool) (s : List Char) (pos : Nat)
    (h : pos ≤ s.length) :
    pos + ((s.drop pos).takeWhile p).length ≤ s.length := by
  have h2 := takeWhile_length_le p (s.drop pos)
  simp only [List.length_drop] at h2
  omega

@[simp] theorem endCurrentSlice_pos (s : List Char) (base : Nat) (st : PState)
    (a b : Nat) : (endCurrentSlice s base st a b).pos = st.pos := by
  unfold endCurrentSlice
  cases h : st.current with
  | none => rfl
  | some x => obtain ⟨ty, rs, ts⟩ := x; rfl

@[simp] theorem endCurrentSlice_tplPos (s : List Char) (base : Nat)
    (st : PState) (a b : Nat) :
    (endCurrentSlice s base st a b).tplPos = st.tplPos := by
  unfold endCurrentSlice
  cases h : st.current with
  | none => rfl
  | some x => obtain ⟨ty, rs, ts⟩ := x; rfl

@[simp] theorem endCurrentSlice_output (s : List Char) (base : Nat)
    (st : PState) (a b : Nat) :
    (endCurrentSlice s base st a b).output = st.output := by
  unfold endCurrentSlice
  cases h : st.current with
  | none => rfl
  | some x => obtain ⟨ty, rs, ts⟩ := x; rfl

@[simp] theorem endCurrentSlice_current (s : List Char) (base : Nat)
    (st : PState) (a b : Nat) :
    (endCurrentSlice s base st a b).current = none := by
  unfold endCurrentSlice
  cases h : st.current with
  | none => exact h
  | some x => obtain ⟨ty, rs, ts⟩ := x; rfl

@[simp] theorem emitAt_pos (s : List Char) (base : Nat) (st : PState) :
    (emitAt s base st).pos = st.pos + 1 := rfl

@[simp] theorem copyIdent_pos (s : List Char) (st : PState) :
    (copyIdent s st).pos
      = st.pos + ((s.drop st.pos).takeWhile isIdentChar).length := rfl

@[simp] theorem copyWs_pos (s : List Char) (st : PState) :
    (copyWs s st).pos
      = st.pos + ((s.drop st.pos).takeWhile pyIsSpace).length := rfl

@[simp] theorem emitArgs_pos (s : List Char) (base : Nat) (st : PState) :
    (emitArgs s base st).pos = scanParen s st.pos 1 - 1 + 1 := by
  unfold emitArgs
  simp

theorem stepChar_pos (s : List Char) (base : Nat) (st : PState) :
    (stepChar s base st).pos = st.pos + 1 := by
  unfold stepChar
  by_cases h : st.current.map (fun x => x.1) = some SliceType.literal <;> simp [h]

theorem stepAt_pos (s : List Char) (base : Nat) (st : PState) :
    (stepAt s base st).pos =
      (let p1 := st.pos + 1 + ((s.drop (st.pos + 1)).takeWhile isIdentChar).length
       let p2 := p1 + ((s.drop p1).takeWhile pyIsSpace).length
       if isFuncCall s p2 then scanParen s (p2 + 1) 1 - 1 + 1 else p2) := by
  simp only [stepAt, copyWs_pos, copyIdent_pos, emitAt_pos]
  split
  · next h => simp
  · next h => simp

theorem procStep_pos (s : List Char) (base : Nat) (st : PState) :
    (procStep s base st).pos = stepPos s st.pos := by
  unfold procStep stepPos
  by_cases h : s.getD st.pos ' ' == '@'
  · rw [if_pos h, if_pos h, stepAt_pos]
  · rw [if_neg h, if_neg h, stepChar_pos]

theorem stepPos_lt (s : List Char) (pos : Nat) (h : pos < s.length) :
    pos < stepPos s pos ∧ stepPos s pos ≤ s.length := by
  unfold stepPos
  by_cases hc : s.getD pos ' ' == '@'
  · rw [if_pos hc]
    simp only
    have hp1le : pos + 1 + ((s.drop (pos + 1)).takeWhile isIdentChar).length
        ≤ s.length := seg_end_le _ s (pos + 1) (by omega)
    have hp2le :
        pos + 1 + ((s.drop (pos + 1)).takeWhile isIdentChar).length
          + ((s.drop
              (pos + 1 + ((s.drop (pos + 1)).takeWhile isIdentChar).length)
             ).takeWhile pyIsSpace).length ≤ s.length :=
      seg_end_le _ s _ hp1le
    split
    · next hf =>
      simp only [isFuncCall, Bool.and_eq_true, decide_eq_true_eq] at hf
      have h1 := scanParen_ge s
        (pos + 1 + ((s.drop (pos + 1)).takeWhile isIdentChar).length
          + ((s.drop
              (pos + 1 + ((s.drop (pos + 1)).takeWhile isIdentChar).length)
             ).takeWhile pyIsSpace).length + 1) 1
      have h2 := scanParen_le s
        (pos + 1 + ((s.drop (pos + 1)).takeWhile isIdentChar).length
          + ((s.drop
              (pos + 1 + ((s.drop (pos + 1)).takeWhile isIdentChar).length)
             ).takeWhile pyIsSpace).length + 1) 1 (by omega)
      omega
    · next hf => omega
  · rw [if_neg hc]
    omega

theorem procStep_pos_lt (s : List Char) (base : Nat) (st : PState)
    (h : st.pos < s.length) :
    st.pos < (procStep s base st).pos ∧ (procStep s base st).pos ≤ s.length := by
  rw [procStep_pos]
  exact stepPos_lt s st.pos h

/-! ## Loop fuel lemmas -/

theorem processLoopF_mono (s : List Char) (base : Nat) :
    ∀ f g st, s.length - st.pos ≤ f → s.length - st.pos ≤ g →
      processLoopF f s base st = processLoopF g s base st := by
  intro f
  induction f with
  | zero =>
    intro g st hf _
    have hge : ¬ st.pos < s.length := by omega
    cases g with
    | zero => rfl
    | succ g2 => simp [processLoopF, hge]
  | succ f2 ih =>
    intro g st hf hg
    cases g with
    | zero =>
      have hge : ¬ st.pos < s.length := by omega
      simp [processLoopF, hge]
    | succ g2 =>
      simp only [processLoopF]
      split
      · next hlt =>
        have h2 := procStep_pos_lt s base st hlt
        exact ih g2 _ (by omega) (by omega)
      · rfl

theorem processLoopF_final (s : List Char) (base : Nat) :
    ∀ f st, s.length - st.pos ≤ f → st.pos ≤ s.length →
      (processLoopF f s base st).pos = s.length := by
  intro f
  induction f with
  | zero =>
    intro st hf hp
    simp only [processLoopF]
    omega
  | succ f2 ih =>
    intro st hf hp
    simp only [processLoopF]
    split
    · next hlt =>
      have h2 := procStep_pos_lt s base st hlt
      exact ih _ (by omega) h2.2
    · next hlt => omega

theorem processLoop_final (s : List Char) (base : Nat) (st : PState)
    (hp : st.pos ≤ s.length) : (processLoop s base st).pos = s.length :=
  processLoopF_final s base _ st (Nat.le_refl _) hp

theorem processLoopF_inv (s : List Char) (base : Nat) (P : PState → Prop)
    (hstep : ∀ st, st.pos < s.length → P st → P (procStep s base st)) :
    ∀ f st, P st → P (processLoopF f s base st) := by
  intro f
  induction f with
  | zero => intro st h; exact h
  | succ f2 ih =>
    intro st h
    simp only [processLoopF]
    split
    · next hlt => exact ih _ (hstep st hlt h)
    · exact h

theorem processLoop_inv (s : List Char) (base : Nat) (P : PState → Prop)
    (hstep : ∀ st, st.pos < s.length → P st → P (procStep s base st))
    (st : PState) (h : P st) : P (processLoop s base st) :=
  processLoopF_inv s base P hstep _ st h

theorem degenFreeF_mono (s : List Char) :
    ∀ f g pos, s.length - pos ≤ f → s.length - pos ≤ g →
      degenFreeF f s pos = degenFreeF g s pos := by
  intro f
  induction f with
  | zero =>
    intro g pos hf _
    have hge : ¬ pos < s.length := by omega
    cases g with
    | zero => rfl
    | succ g2 => simp [degenFreeF, hge]
  | succ f2 ih =>
    intro g pos hf hg
    cases g with
    | zero =>
      have hge : ¬ pos < s.length := by omega
      simp [degenFreeF, hge]
    | succ g2 =>
      simp only [degenFreeF]
      split
      · next hlt =>
        have h2 := stepPos_lt s pos hlt
        rw [ih g2 _ (by omega) (by omega)]
      · rfl

theorem degenFree_step (s : List Char) (pos : Nat) (h : pos < s.length)
    (hd : degenFree s pos = true) :
    stepDegen s pos = false ∧ degenFree s (stepPos s pos) = true := by
  unfold degenFree at hd
  rw [show s.length - pos = (s.length - pos - 1) + 1 by omega] at hd
  simp only [degenFreeF] at hd
  rw [if_pos h] at hd
  simp only [Bool.and_eq_true, Bool.not_eq_true'] at hd
  refine ⟨hd.1, ?_⟩
  have h2 := stepPos_lt s pos h
  unfold degenFree
  rw [degenFreeF_mono s (s.length - stepPos s pos) (s.length - pos - 1)
    (stepPos s pos) (Nat.le_refl _) (by omega)]
  exact hd.2

/-! ## The scan invariant -/

/-- Where the source-side coverage of the emitted slices currently ends:
the open slice's start, or `base + pos` when no slice is open. -/
def srcEnd (base : Nat) (st : PState) : Nat :=
  match st.current with
  | some (_, rs, _) => rs
  | none => base + st.pos

/-- Where the rendered-side coverage currently ends: the open slice's
rendered start, or `tplPos` when no slice is open. -/
def tplEnd (st : PState) : Nat :=
  match st.current with
  | some (_, _, ts) => ts
  | none => st.tplPos

@[simp] theorem srcEnd_none (base : Nat) (st : PState) (h : st.current = none) :
    srcEnd base st = base + st.pos := by
  unfold srcEnd
  rw [h]

@[simp] theorem tplEnd_none (st : PState) (h : st.current = none) :
    tplEnd st = st.tplPos := by
  unfold tplEnd
  rw [h]

/-- The state invariant of the character scan of
`_process_select_statement` over the region `s` at absolute offset
`base`.  It carries everything the specification's slice invariants need:
the rendered-side chain of the emitted slices, the raw-text/mapped-range
alignment, literal fidelity, the placeholder content of nonempty
generated slices, range bounds, and the shape of the open slice. -/
structure ScanInv (s : List Char) (base : Nat) (st : PState) : Prop where
  pos_le : st.pos ≤ s.length
  out_len : st.output.length = st.tplPos
  tpl_chain : chainFrom 0 (st.tplSlices.map (fun sl => sl.templated_slice))
      (tplEnd st) = true
  raw_eq : st.rawSlices.map (fun sl => sl.raw)
      = st.tplSlices.map (fun sl =>
          pySlice s (sl.source_slice.1 - base) (sl.source_slice.2 - base))
  lit_fid : ∀ sl ∈ st.tplSlices, sl.slice_type = SliceType.literal →
      pySlice st.output sl.templated_slice.1 sl.templated_slice.2
        = pySlice s (sl.source_slice.1 - base) (sl.source_slice.2 - base)
  gen_ph : ∀ sl ∈ st.tplSlices, sl.slice_type = SliceType.templated →
      sl.templated_slice.2 = sl.templated_slice.1
      ∨ (sl.templated_slice.2 = sl.templated_slice.1 + PLACEHOLDER.length
         ∧ pySlice st.output sl.templated_slice.1 sl.templated_slice.2
             = PLACEHOLDER)
  bounds : ∀ sl ∈ st.tplSlices, base ≤ sl.source_slice.1
      ∧ sl.source_slice.2 ≤ base + st.pos
      ∧ sl.templated_slice.2 ≤ st.tplPos
  cur : ∀ ty rs ts, st.current = some (ty, rs, ts) →
      ty = SliceType.literal ∧ base ≤ rs ∧ rs ≤ base + st.pos
      ∧ ts ≤ st.tplPos ∧ st.output.drop ts = pySlice s (rs - base) st.pos

/-- Source-side coverage: the source ranges of the emitted slices chain
from `base` to `srcEnd`. -/
def InvSrc (base : Nat) (st : PState) : Prop :=
  chainFrom base (st.tplSlices.map (fun sl => sl.source_slice))
    (srcEnd base st) = true

theorem initState_inv (s : List Char) (base : Nat) : ScanInv s base initState := by
  refine { pos_le := ?_, out_len := ?_, tpl_chain := ?_, raw_eq := ?_,
           lit_fid := ?_, gen_ph := ?_, bounds := ?_, cur := ?_ } <;>
    simp [initState, tplEnd, chainFrom]

theorem initState_src (base : Nat) : InvSrc base initState := by
  simp [InvSrc, initState, srcEnd, chainFrom]

theorem endCurrentSlice_inv (s : List Char) (base : Nat) (st : PState)
    (h : ScanInv s base st) :
    ScanInv s base (endCurrentSlice s base st (base + st.pos) st.tplPos) := by
  cases hc : st.current with
  | none => unfold endCurrentSlice; rw [hc]; exact h
  | some x =>
    obtain ⟨ty, rs, ts⟩ := x
    obtain ⟨hty, hrs1, hrs2, hts, hout⟩ := h.cur ty rs ts hc
    unfold endCurrentSlice
    rw [hc]
    refine { pos_le := h.pos_le, out_len := h.out_len, tpl_chain := ?_,
             raw_eq := ?_, lit_fid := ?_, gen_ph := ?_, bounds := ?_,
             cur := ?_ }
    · simp only [tplEnd, List.map_append, List.map_cons, List.map_nil]
      exact chainFrom_snoc _ 0 ts st.tplPos
        (by simpa [tplEnd, hc] using h.tpl_chain) hts
    · simp only [List.map_append, List.map_cons, List.map_nil, h.raw_eq]
    · intro sl hsl hty2
      rcases List.mem_append.mp hsl with hold | hnew
      · exact h.lit_fid sl hold hty2
      · rw [List.mem_singleton] at hnew
        subst hnew
        simp only
        rw [show (base + st.pos) - base = st.pos by omega,
          ← h.out_len, pySlice_drop, hout]
    · intro sl hsl hty2
      rcases List.mem_append.mp hsl with hold | hnew
      · exact h.gen_ph sl hold hty2
      · rw [List.mem_singleton] at hnew
        subst hnew
        simp only at hty2
        rw [hty] at hty2
        cases hty2
    · intro sl hsl
      rcases List.mem_append.mp hsl with hold | hnew
      · exact h.bounds sl hold
      · rw [List.mem_singleton] at hnew
        subst hnew
        exact ⟨hrs1, Nat.le_refl _, Nat.le_refl _⟩
    · intro ty2 rs2 ts2 hcc
      simp at hcc

theorem srcEnd_some (base : Nat) (st : PState) (ty : SliceType) (rs ts : Nat)
    (h : st.current = some (ty, rs, ts)) : srcEnd base st = rs := by
  unfold srcEnd
  rw [h]

theorem tplEnd_some (st : PState) (ty : SliceType) (rs ts : Nat)
    (h : st.current = some (ty, rs, ts)) : tplEnd st = ts := by
  unfold tplEnd
  rw [h]

theorem endCurrentSlice_src (s : List Char) (base : Nat) (st : PState)
    (h : ScanInv s base st) (hsrc : InvSrc base st) :
    InvSrc base (endCurrentSlice s base st (base + st.pos) st.tplPos) := by
  cases hc : st.current with
  | none => unfold endCurrentSlice; rw [hc]; exact hsrc
  | some x =>
    obtain ⟨ty, rs, ts⟩ := x
    obtain ⟨hty, hrs1, hrs2, hts, hout⟩ := h.cur ty rs ts hc
    unfold InvSrc endCurrentSlice
    rw [hc]
    simp only [srcEnd, List.map_append, List.map_cons, List.map_nil]
    refine chainFrom_snoc _ base rs (base + st.pos) ?_ hrs2
    rw [← srcEnd_some base st ty rs ts hc]
    exact hsrc

@[simp] theorem emitAt_output (s : List Char) (base : Nat) (st : PState) :
    (emitAt s base st).output = st.output := by
  unfold emitAt
  simp

@[simp] theorem emitAt_tplPos (s : List Char) (base : Nat) (st : PState) :
    (emitAt s base st).tplPos = st.tplPos := by
  unfold emitAt
  simp

@[simp] theorem emitAt_current (s : List Char) (base : Nat) (st : PState) :
    (emitAt s base st).current
      = some (SliceType.literal, base + st.pos + 1, st.tplPos) := rfl

@[simp] theorem copyIdent_current (s : List Char) (st : PState) :
    (copyIdent s st).current = st.current := rfl

@[simp] theorem copyWs_current (s : List Char) (st : PState) :
    (copyWs s st).current = st.current := rfl

/-- Copying a `takeWhile` segment verbatim preserves the invariant (both
identifier and whitespace collection have this shape). -/
theorem copySeg_inv (p : Char → Bool) (s : List Char) (base : Nat)
    (st : PState) (h : ScanInv s base st) (hc : st.current ≠ none) :
    ScanInv s base
      { st with
        output := st.output ++ (s.drop st.pos).takeWhile p,
        tplPos := st.tplPos + ((s.drop st.pos).takeWhile p).length,
        pos := st.pos + ((s.drop st.pos).takeWhile p).length } := by
  cases hcc : st.current with
  | none => exact absurd hcc hc
  | some x =>
  obtain ⟨ty, rs, ts⟩ := x
  obtain ⟨hty, hrs1, hrs2, hts, hout⟩ := h.cur ty rs ts hcc
  have hol := h.out_len
  have htc := h.tpl_chain
  rw [tplEnd_some st ty rs ts hcc] at htc
  refine { pos_le := ?_, out_len := ?_, tpl_chain := ?_, raw_eq := h.raw_eq,
           lit_fid := ?_, gen_ph := ?_, bounds := ?_, cur := ?_ }
  · exact seg_end_le p s st.pos h.pos_le
  · dsimp only
    simp only [List.length_append]
    omega
  · dsimp only [tplEnd]
    exact htc
  · intro sl hsl hty2
    dsimp only at hsl ⊢
    rw [pySlice_append_right _ _ _ _
      (by rw [hol]; exact ((h.bounds sl hsl).2.2))]
    exact h.lit_fid sl hsl hty2
  · intro sl hsl hty2
    dsimp only at hsl ⊢
    rcases h.gen_ph sl hsl hty2 with hz | ⟨hlen, hcont⟩
    · exact Or.inl hz
    · refine Or.inr ⟨hlen, ?_⟩
      rw [pySlice_append_right _ _ _ _
        (by rw [hol]; exact ((h.bounds sl hsl).2.2))]
      exact hcont
  · intro sl hsl
    dsimp only at hsl ⊢
    obtain ⟨hb1, hb2, hb3⟩ := h.bounds sl hsl
    exact ⟨hb1, by omega, by omega⟩
  · intro ty2 rs2 ts2 hcc2
    dsimp only at hcc2 ⊢
    simp only [Option.some.injEq, Prod.mk.injEq] at hcc2
    obtain ⟨he1, he2, he3⟩ := hcc2
    subst he1; subst he2; subst he3
    refine ⟨hty, hrs1, by omega, by omega, ?_⟩
    rw [List.drop_append_of_le_length (by omega), hout,
      pySlice_split s (rs - base) st.pos
        (st.pos + ((s.drop st.pos).takeWhile p).length) (by omega) (by omega)]
    congr 1
    exact takeWhile_drop_pySlice p s st.pos

/-- Copying a `takeWhile` segment does not move the source-side chain. -/
theorem copySeg_src (p : Char → Bool) (s : List Char) (base : Nat)
    (st : PState) (hc : st.current ≠ none) (hsrc : InvSrc base st) :
    InvSrc base
      { st with
        output := st.output ++ (s.drop st.pos).takeWhile p,
        tplPos := st.tplPos + ((s.drop st.pos).takeWhile p).length,
        pos := st.pos + ((s.drop st.pos).takeWhile p).length } := by
  cases hcc : st.current with
  | none => exact absurd hcc hc
  | some x =>
  obtain ⟨ty, rs, ts⟩ := x
  unfold InvSrc at hsrc ⊢
  rw [srcEnd_some base st ty rs ts hcc] at hsrc
  dsimp only [srcEnd]
  exact hsrc

/-- Copying one source character verbatim preserves the invariant (the
`(` copy of the function-call branch and the regular-character copy both
have this shape). -/
theorem copyOne_inv (s : List Char) (base : Nat) (st : PState)
    (h : ScanInv s base st) (hc : st.current ≠ none)
    (hlt : st.pos < s.length) :
    ScanInv s base
      { st with
        output := st.output ++ [s.getD st.pos ' '],
        tplPos := st.tplPos + 1,
        pos := st.pos + 1 } := by
  cases hcc : st.current with
  | none => exact absurd hcc hc
  | some x =>
  obtain ⟨ty, rs, ts⟩ := x
  obtain ⟨hty, hrs1, hrs2, hts, hout⟩ := h.cur ty rs ts hcc
  have hol := h.out_len
  have htc := h.tpl_chain
  rw [tplEnd_some st ty rs ts hcc] at htc
  refine { pos_le := ?_, out_len := ?_, tpl_chain := ?_,
           raw_eq := h.raw_eq, lit_fid := ?_, gen_ph := ?_, bounds := ?_,
           cur := ?_ }
  · dsimp only
    omega
  · dsimp only
    simp only [List.length_append, List.length_cons, List.length_nil]
    omega
  · dsimp only [tplEnd]
    exact htc
  · intro sl hsl hty2
    dsimp only at hsl ⊢
    rw [pySlice_append_right _ _ _ _
      (by rw [hol]; exact ((h.bounds sl hsl).2.2))]
    exact h.lit_fid sl hsl hty2
  · intro sl hsl hty2
    dsimp only at hsl ⊢
    rcases h.gen_ph sl hsl hty2 with hz | ⟨hlen, hcont⟩
    · exact Or.inl hz
    · refine Or.inr ⟨hlen, ?_⟩
      rw [pySlice_append_right _ _ _ _
        (by rw [hol]; exact ((h.bounds sl hsl).2.2))]
      exact hcont
  · intro sl hsl
    dsimp only at hsl ⊢
    obtain ⟨hb1, hb2, hb3⟩ := h.bounds sl hsl
    exact ⟨hb1, by omega, by omega⟩
  · intro ty2 rs2 ts2 hcc2
    dsimp only at hcc2 ⊢
    simp only [Option.some.injEq, Prod.mk.injEq] at hcc2
    obtain ⟨he1, he2, he3⟩ := hcc2
    subst he1; subst he2; subst he3
    refine ⟨hty, hrs1, by omega, by omega, ?_⟩
    rw [List.drop_append_of_le_length (by omega), hout,
      ← pySlice_one s st.pos ' ' hlt,
      ← pySlice_split s (rs - base) st.pos (st.pos + 1) (by omega)
        (by omega)]

/-- Copying one character does not move the source-side chain. -/
theorem copyOne_src (s : List Char) (base : Nat) (st : PState)
    (hc : st.current ≠ none) (hsrc : InvSrc base st) :
    InvSrc base
      { st with
        output := st.output ++ [s.getD st.pos ' '],
        tplPos := st.tplPos + 1,
        pos := st.pos + 1 } := by
  cases hcc : st.current with
  | none => exact absurd hcc hc
  | some x =>
  obtain ⟨ty, rs, ts⟩ := x
  unfold InvSrc at hsrc ⊢
  rw [srcEnd_some base st ty rs ts hcc] at hsrc
  dsimp only [srcEnd]
  exact hsrc

theorem emitAt_inv (s : List Char) (base : Nat) (st : PState)
    (h : ScanInv s base st) (hlt : st.pos < s.length)
    (hat : s.getD st.pos ' ' = '@') :
    ScanInv s base (emitAt s base st) := by
  have h1 := endCurrentSlice_inv s base st h
  have hc1 : (endCurrentSlice s base st (base + st.pos) st.tplPos).current
      = none := endCurrentSlice_current ..
  have hp1 : (endCurrentSlice s base st (base + st.pos) st.tplPos).pos
      = st.pos := endCurrentSlice_pos ..
  have ht1 : (endCurrentSlice s base st (base + st.pos) st.tplPos).tplPos
      = st.tplPos := endCurrentSlice_tplPos ..
  have ho1 : (endCurrentSlice s base st (base + st.pos) st.tplPos).output
      = st.output := endCurrentSlice_output ..
  set st1 := endCurrentSlice s base st (base + st.pos) st.tplPos with hst1
  have htc := h1.tpl_chain
  rw [tplEnd_none st1 hc1, ht1] at htc
  have hol := h1.out_len
  rw [ht1, ho1] at hol
  show ScanInv s base
    { st1 with
      rawSlices := st1.rawSlices ++
        [{ raw := ['@'], slice_type := .templated,
           source_idx := base + st.pos }],
      tplSlices := st1.tplSlices ++
        [{ slice_type := .templated,
           source_slice := (base + st.pos, base + st.pos + 1),
           templated_slice := (st.tplPos, st.tplPos) }],
      pos := st.pos + 1,
      current := some (.literal, base + st.pos + 1, st.tplPos) }
  refine { pos_le := ?_, out_len := ?_, tpl_chain := ?_, raw_eq := ?_,
           lit_fid := ?_, gen_ph := ?_, bounds := ?_, cur := ?_ }
  · dsimp only
    omega
  · dsimp only
    rw [ho1, ht1]
    exact hol
  · dsimp only [tplEnd]
    rw [List.map_append, List.map_cons, List.map_nil]
    exact chainFrom_snoc _ 0 st.tplPos st.tplPos htc (Nat.le_refl _)
  · dsimp only
    rw [List.map_append, List.map_cons, List.map_nil,
      List.map_append, List.map_cons, List.map_nil, h1.raw_eq]
    congr 1
    simp only
    rw [Nat.add_sub_cancel_left, show base + st.pos + 1 - base = st.pos + 1
      by omega, pySlice_one s st.pos ' ' hlt, hat]
  · intro sl hsl hty2
    dsimp only at hsl ⊢
    rcases List.mem_append.mp hsl with hold | hnew
    · have hlf := h1.lit_fid sl hold hty2
      rw [ho1] at hlf
      rw [ho1]
      exact hlf
    · rw [List.mem_singleton] at hnew
      subst hnew
      cases hty2
  · intro sl hsl hty2
    dsimp only at hsl ⊢
    rcases List.mem_append.mp hsl with hold | hnew
    · rcases h1.gen_ph sl hold hty2 with hz | ⟨hlen, hcont⟩
      · exact Or.inl hz
      · exact Or.inr ⟨hlen, by rw [ho1]; rw [ho1] at hcont; exact hcont⟩
    · rw [List.mem_singleton] at hnew
      subst hnew
      exact Or.inl rfl
  · intro sl hsl
    dsimp only at hsl ⊢
    rcases List.mem_append.mp hsl with hold | hnew
    · obtain ⟨hb1, hb2, hb3⟩ := h1.bounds sl hold
      rw [hp1] at hb2
      exact ⟨hb1, by omega, hb3⟩
    · rw [List.mem_singleton] at hnew
      subst hnew
      refine ⟨?_, ?_, ?_⟩ <;> (dsimp only; omega)
  · intro ty2 rs2 ts2 hcc2
    dsimp only at hcc2 ⊢
    simp only [Option.some.injEq, Prod.mk.injEq] at hcc2
    obtain ⟨he1, he2, he3⟩ := hcc2
    subst he1; subst he2; subst he3
    refine ⟨rfl, by omega, by omega, by rw [ht1], ?_⟩
    rw [ho1, show base + st.pos + 1 - base = st.pos + 1 by omega,
      pySlice_nil s (st.pos + 1) (st.pos + 1) (Nat.le_refl _)]
    exact List.drop_eq_nil_of_le (by omega)

theorem emitAt_src (s : List Char) (base : Nat) (st : PState)
    (h : ScanInv s base st) (hsrc : InvSrc base st) :
    InvSrc base (emitAt s base st) := by
  have hs1 := endCurrentSlice_src s base st h hsrc
  have hc1 : (endCurrentSlice s base st (base + st.pos) st.tplPos).current
      = none := endCurrentSlice_current ..
  have hp1 : (endCurrentSlice s base st (base + st.pos) st.tplPos).pos
      = st.pos := endCurrentSlice_pos ..
  set st1 := endCurrentSlice s base st (base + st.pos) st.tplPos with hst1
  unfold InvSrc at hs1 ⊢
  rw [srcEnd_none base st1 hc1, hp1] at hs1
  show chainFrom base
    (List.map (fun sl => sl.source_slice) (st1.tplSlices ++
      [{ slice_type := .templated,
         source_slice := (base + st.pos, base + st.pos + 1),
         templated_slice := (st.tplPos, st.tplPos) }]))
    (srcEnd base
      { st1 with
        rawSlices := st1.rawSlices ++
          [{ raw := ['@'], slice_type := .templated,
             source_idx := base + st.pos }],
        tplSlices := st1.tplSlices ++
          [{ slice_type := .templated,
             source_slice := (base + st.pos, base + st.pos + 1),
             templated_slice := (st.tplPos, st.tplPos) }],
        pos := st.pos + 1,
        current := some (.literal, base + st.pos + 1, st.tplPos) }) = true
  dsimp only [srcEnd]
  rw [List.map_append, List.map_cons, List.map_nil]
  exact chainFrom_snoc _ base (base + st.pos) (base + st.pos + 1) hs1
    (by omega)

theorem emitArgs_inv (s : List Char) (base : Nat) (st : PState)
    (h : ScanInv s base st) (hpos1 : 1 ≤ st.pos) (hpos2 : st.pos ≤ s.length) :
    ScanInv s base (emitArgs s base st) := by
  have h1 := endCurrentSlice_inv s base st h
  have hc1 : (endCurrentSlice s base st (base + st.pos) st.tplPos).current
      = none := endCurrentSlice_current ..
  have hp1 : (endCurrentSlice s base st (base + st.pos) st.tplPos).pos
      = st.pos := endCurrentSlice_pos ..
  set st1 := endCurrentSlice s base st (base + st.pos) st.tplPos with hst1
  have htc := h1.tpl_chain
  rw [tplEnd_none st1 hc1] at htc
  have hol := h1.out_len
  have hge : st1.pos ≤ scanParen s st1.pos 1 := scanParen_ge ..
  have hle : scanParen s st1.pos 1 ≤ s.length :=
    scanParen_le s st1.pos 1 (by omega)
  have h1q : 1 ≤ scanParen s st1.pos 1 := by omega
  have hfae : scanParen s st1.pos 1 - 1 < s.length := by omega
  show ScanInv s base
    { st1 with
      rawSlices := st1.rawSlices ++
        [{ raw := pySlice s st1.pos (scanParen s st1.pos 1 - 1),
           slice_type := .templated, source_idx := base + st1.pos }],
      tplSlices := st1.tplSlices ++
        [{ slice_type := .templated,
           source_slice := (base + st1.pos,
             base + (scanParen s st1.pos 1 - 1)),
           templated_slice := (st1.tplPos,
             st1.tplPos + PLACEHOLDER.length) }],
      output := (st1.output ++ PLACEHOLDER)
        ++ [s.getD (scanParen s st1.pos 1 - 1) ' '],
      tplPos := st1.tplPos + PLACEHOLDER.length + 1,
      pos := scanParen s st1.pos 1 - 1 + 1,
      current := some (.literal, base + (scanParen s st1.pos 1 - 1),
        st1.tplPos + PLACEHOLDER.length) }
  refine { pos_le := ?_, out_len := ?_, tpl_chain := ?_, raw_eq := ?_,
           lit_fid := ?_, gen_ph := ?_, bounds := ?_, cur := ?_ }
  · dsimp only
    omega
  · dsimp only
    simp only [List.length_append, List.length_cons, List.length_nil]
    omega
  · dsimp only [tplEnd]
    rw [List.map_append, List.map_cons, List.map_nil]
    exact chainFrom_snoc _ 0 st1.tplPos (st1.tplPos + PLACEHOLDER.length)
      htc (Nat.le_add_right ..)
  · dsimp only
    rw [List.map_append, List.map_cons, List.map_nil,
      List.map_append, List.map_cons, List.map_nil, h1.raw_eq]
    congr 1
    simp only
    rw [Nat.add_sub_cancel_left, Nat.add_sub_cancel_left]
  · intro sl hsl hty2
    dsimp only at hsl ⊢
    rcases List.mem_append.mp hsl with hold | hnew
    · have hb3 := (h1.bounds sl hold).2.2
      rw [pySlice_append_right _ _ _ _
          (by simp only [List.length_append]; omega),
        pySlice_append_right _ _ _ _ (by omega)]
      exact h1.lit_fid sl hold hty2
    · rw [List.mem_singleton] at hnew
      subst hnew
      cases hty2
  · intro sl hsl hty2
    dsimp only at hsl ⊢
    rcases List.mem_append.mp hsl with hold | hnew
    · have hb3 := (h1.bounds sl hold).2.2
      rcases h1.gen_ph sl hold hty2 with hz | ⟨hlen, hcont⟩
      · exact Or.inl hz
      · refine Or.inr ⟨hlen, ?_⟩
        rw [pySlice_append_right _ _ _ _
            (by simp only [List.length_append]; omega),
          pySlice_append_right _ _ _ _ (by omega)]
        exact hcont
    · rw [List.mem_singleton] at hnew
      subst hnew
      refine Or.inr ⟨rfl, ?_⟩
      dsimp only
      rw [pySlice_append_right _ _ _ _
        (by simp only [List.length_append]; omega)]
      rw [← hol]
      exact pySlice_after st1.output PLACEHOLDER
  · intro sl hsl
    dsimp only at hsl ⊢
    rcases List.mem_append.mp hsl with hold | hnew
    · obtain ⟨hb1, hb2, hb3⟩ := h1.bounds sl hold
      exact ⟨hb1, by omega, by omega⟩
    · rw [List.mem_singleton] at hnew
      subst hnew
      refine ⟨?_, ?_, ?_⟩ <;> (dsimp only; omega)
  · intro ty2 rs2 ts2 hcc2
    dsimp only at hcc2 ⊢
    simp only [Option.some.injEq, Prod.mk.injEq] at hcc2
    obtain ⟨he1, he2, he3⟩ := hcc2
    subst he1; subst he2; subst he3
    refine ⟨rfl, by omega, by omega, by omega, ?_⟩
    have hlen2 : st1.tplPos + PLACEHOLDER.length
        = (st1.output ++ PLACEHOLDER).length := by
      simp only [List.length_append]
      omega
    rw [hlen2, drop_append_all, Nat.add_sub_cancel_left]
    exact (pySlice_one s (scanParen s st1.pos 1 - 1) ' ' hfae).symm

theorem emitArgs_src (s : List Char) (base : Nat) (st : PState)
    (h : ScanInv s base st) (hsrc : InvSrc base st)
    (hlt : st.pos < s.length) :
    InvSrc base (emitArgs s base st) := by
  have hs1 := endCurrentSlice_src s base st h hsrc
  have hc1 : (endCurrentSlice s base st (base + st.pos) st.tplPos).current
      = none := endCurrentSlice_current ..
  have hp1 : (endCurrentSlice s base st (base + st.pos) st.tplPos).pos
      = st.pos := endCurrentSlice_pos ..
  set st1 := endCurrentSlice s base st (base + st.pos) st.tplPos with hst1
  have hsucc : st1.pos + 1 ≤ scanParen s st1.pos 1 :=
    scanParen_succ s st1.pos 1 (by omega) (by omega)
  unfold InvSrc at hs1 ⊢
  rw [srcEnd_none base st1 hc1, hp1] at hs1
  show chainFrom base
    (List.map (fun sl => sl.source_slice) (st1.tplSlices ++
      [{ slice_type := .templated,
         source_slice := (base + st1.pos,
           base + (scanParen s st1.pos 1 - 1)),
         templated_slice := (st1.tplPos,
           st1.tplPos + PLACEHOLDER.length) }]))
    (srcEnd base
      { st1 with
        rawSlices := st1.rawSlices ++
          [{ raw := pySlice s st1.pos (scanParen s st1.pos 1 - 1),
             slice_type := .templated, source_idx := base + st1.pos }],
        tplSlices := st1.tplSlices ++
          [{ slice_type := .templated,
             source_slice := (base + st1.pos,
               base + (scanParen s st1.pos 1 - 1)),
             templated_slice := (st1.tplPos,
               st1.tplPos + PLACEHOLDER.length) }],
        output := (st1.output ++ PLACEHOLDER)
          ++ [s.getD (scanParen s st1.pos 1 - 1) ' '],
        tplPos := st1.tplPos + PLACEHOLDER.length + 1,
        pos := scanParen s st1.pos 1 - 1 + 1,
        current := some (.literal, base + (scanParen s st1.pos 1 - 1),
          st1.tplPos + PLACEHOLDER.length) }) = true
  dsimp only [srcEnd]
  rw [List.map_append, List.map_cons, List.map_nil]
  refine chainFrom_snoc _ base (base + st1.pos)
    (base + (scanParen s st1.pos 1 - 1)) ?_ (by omega)
  rw [hp1]
  exact hs1

theorem stepChar_newSlice_inv (s : List Char) (base : Nat) (st : PState)
    (h : ScanInv s base st) (hcn : st.current = none) :
    ScanInv s base
      { st with current := some (.literal, base + st.pos, st.tplPos) } := by
  have htc := h.tpl_chain
  have hol := h.out_len
  rw [tplEnd_none st hcn] at htc
  refine { pos_le := h.pos_le, out_len := h.out_len, tpl_chain := ?_,
           raw_eq := h.raw_eq, lit_fid := h.lit_fid, gen_ph := h.gen_ph,
           bounds := h.bounds, cur := ?_ }
  · dsimp only [tplEnd]
    exact htc
  · intro ty2 rs2 ts2 hcc2
    dsimp only at hcc2 ⊢
    simp only [Option.some.injEq, Prod.mk.injEq] at hcc2
    obtain ⟨he1, he2, he3⟩ := hcc2
    subst he1; subst he2; subst he3
    refine ⟨rfl, by omega, by omega, by omega, ?_⟩
    rw [Nat.add_sub_cancel_left,
      pySlice_nil s st.pos st.pos (Nat.le_refl _)]
    exact List.drop_eq_nil_of_le (by omega)

theorem stepChar_newSlice_src (base : Nat) (st : PState)
    (hcn : st.current = none) (hsrc : InvSrc base st) :
    InvSrc base
      { st with current := some (.literal, base + st.pos, st.tplPos) } := by
  unfold InvSrc at hsrc ⊢
  rw [srcEnd_none base st hcn] at hsrc
  dsimp only [srcEnd]
  exact hsrc

theorem stepChar_inv (s : List Char) (base : Nat) (st : PState)
    (h : ScanInv s base st) (hlt : st.pos < s.length) :
    ScanInv s base (stepChar s base st) := by
  simp only [stepChar]
  by_cases hcl : st.current.map (fun x => x.1) = some SliceType.literal
  · rw [if_pos hcl]
    have hc : st.current ≠ none := by
      intro hn
      rw [hn] at hcl
      simp at hcl
    exact copyOne_inv s base st h hc hlt
  · rw [if_neg hcl]
    have hcn : st.current = none := by
      cases hcc : st.current with
      | none => rfl
      | some x =>
        obtain ⟨ty, rs, ts⟩ := x
        have hty := (h.cur ty rs ts hcc).1
        rw [hcc, hty] at hcl
        simp at hcl
    exact copyOne_inv s base _
      (stepChar_newSlice_inv s base st h hcn) (by simp) hlt

theorem stepChar_src (s : List Char) (base : Nat) (st : PState)
    (h : ScanInv s base st) (hsrc : InvSrc base st)
    (_hlt : st.pos < s.length) :
    InvSrc base (stepChar s base st) := by
  simp only [stepChar]
  by_cases hcl : st.current.map (fun x => x.1) = some SliceType.literal
  · rw [if_pos hcl]
    have hc : st.current ≠ none := by
      intro hn
      rw [hn] at hcl
      simp at hcl
    exact copyOne_src s base st hc hsrc
  · rw [if_neg hcl]
    have hcn : st.current = none := by
      cases hcc : st.current with
      | none => rfl
      | some x =>
        obtain ⟨ty, rs, ts⟩ := x
        have hty := (h.cur ty rs ts hcc).1
        rw [hcc, hty] at hcl
        simp at hcl
    exact copyOne_src s base _ (by simp)
      (stepChar_newSlice_src base st hcn hsrc)

theorem stepAt_inv (s : List Char) (base : Nat) (st : PState)
    (h : ScanInv s base st) (hlt : st.pos < s.length)
    (hat : s.getD st.pos ' ' = '@') :
    ScanInv s base (stepAt s base st) := by
  have h2 := emitAt_inv s base st h hlt hat
  have h3 : ScanInv s base (copyIdent s (emitAt s base st)) :=
    copySeg_inv isIdentChar s base (emitAt s base st) h2 (by simp)
  have h4 : ScanInv s base (copyWs s (copyIdent s (emitAt s base st))) :=
    copySeg_inv pyIsSpace s base (copyIdent s (emitAt s base st)) h3
      (by simp)
  simp only [stepAt]
  by_cases hf :
      isFuncCall s (copyWs s (copyIdent s (emitAt s base st))).pos = true
  · rw [if_pos hf]
    have hf2 := hf
    simp only [isFuncCall, Bool.and_eq_true, decide_eq_true_eq,
      beq_iff_eq] at hf2
    have h5 := copyOne_inv s base
      (copyWs s (copyIdent s (emitAt s base st))) h4 (by simp) hf2.1
    rw [hf2.2] at h5
    exact emitArgs_inv s base _ h5 (by dsimp only; omega)
      (by dsimp only; omega)
  · rw [if_neg hf]
    exact h4

theorem stepAt_src (s : List Char) (base : Nat) (st : PState)
    (h : ScanInv s base st) (hsrc : InvSrc base st)
    (hlt : st.pos < s.length) (hat : s.getD st.pos ' ' = '@')
    (hdeg : stepDegen s st.pos = false) :
    InvSrc base (stepAt s base st) := by
  have h2 := emitAt_inv s base st h hlt hat
  have hs2 := emitAt_src s base st h hsrc
  have h3 : ScanInv s base (copyIdent s (emitAt s base st)) :=
    copySeg_inv isIdentChar s base (emitAt s base st) h2 (by simp)
  have hs3 : InvSrc base (copyIdent s (emitAt s base st)) :=
    copySeg_src isIdentChar s base (emitAt s base st) (by simp) hs2
  have h4 : ScanInv s base (copyWs s (copyIdent s (emitAt s base st))) :=
    copySeg_inv pyIsSpace s base (copyIdent s (emitAt s base st)) h3
      (by simp)
  have hs4 : InvSrc base (copyWs s (copyIdent s (emitAt s base st))) :=
    copySeg_src pyIsSpace s base (copyIdent s (emitAt s base st))
      (by simp) hs3
  simp only [stepAt]
  by_cases hf :
      isFuncCall s (copyWs s (copyIdent s (emitAt s base st))).pos = true
  · rw [if_pos hf]
    have hf2 := hf
    simp only [isFuncCall, Bool.and_eq_true, decide_eq_true_eq,
      beq_iff_eq] at hf2
    have hp4 : (copyWs s (copyIdent s (emitAt s base st))).pos
        = st.pos + 1 + ((s.drop (st.pos + 1)).takeWhile isIdentChar).length
          + ((s.drop (st.pos + 1
              + ((s.drop (st.pos + 1)).takeWhile isIdentChar).length)
            ).takeWhile pyIsSpace).length := by
      simp
    have hdeg2 := hdeg
    simp only [stepDegen, hat, beq_self_eq_true, if_true,
      Bool.and_eq_false_iff] at hdeg2
    have hne : (copyWs s (copyIdent s (emitAt s base st))).pos + 1
        ≠ s.length := by
      rcases hdeg2 with hd1 | hd2
      · exfalso
        rw [← hp4] at hd1
        rw [hf] at hd1
        cases hd1
      · rw [hp4]
        intro hcontra
        rw [← hcontra] at hd2
        simp at hd2
    have h5 := copyOne_inv s base
      (copyWs s (copyIdent s (emitAt s base st))) h4 (by simp) hf2.1
    have hs5 := copyOne_src s base
      (copyWs s (copyIdent s (emitAt s base st))) (by simp) hs4
    rw [hf2.2] at h5 hs5
    refine emitArgs_src s base _ h5 hs5 ?_
    dsimp only
    omega
  · rw [if_neg hf]
    exact hs4

theorem procStep_inv (s : List Char) (base : Nat) (st : PState)
    (h : ScanInv s base st) (hlt : st.pos < s.length) :
    ScanInv s base (procStep s base st) := by
  unfold procStep
  by_cases hc : (s.getD st.pos ' ' == '@') = true
  · rw [if_pos hc]
    exact stepAt_inv s base st h hlt (by simpa [beq_iff_eq] using hc)
  · rw [if_neg hc]
    exact stepChar_inv s base st h hlt

theorem procStep_src (s : List Char) (base : Nat) (st : PState)
    (h : ScanInv s base st) (hsrc : InvSrc base st)
    (hlt : st.pos < s.length) (hdeg : stepDegen s st.pos = false) :
    InvSrc base (procStep s base st) := by
  unfold procStep
  by_cases hc : (s.getD st.pos ' ' == '@') = true
  · rw [if_pos hc]
    exact stepAt_src s base st h hsrc hlt
      (by simpa [beq_iff_eq] using hc) hdeg
  · rw [if_neg hc]
    exact stepChar_src s base st h hsrc hlt

/-! ## The final state of the region scan -/

/-- The state after the scan loop and the final `_end_current_slice`. -/
def finalState (s : List Char) (base : Nat) : PState :=
  let fin := processLoop s base initState
  endCurrentSlice s base fin (base + fin.pos) fin.tplPos

theorem processSelectStatement_eq (s : List Char) (base : Nat) :
    processSelectStatement s base =
      ((finalState s base).output, (finalState s base).rawSlices,
        (finalState s base).tplSlices) := rfl

theorem finalState_inv (s : List Char) (base : Nat) :
    ScanInv s base (finalState s base)
    ∧ (finalState s base).current = none
    ∧ (finalState s base).pos = s.length := by
  have hloop : ScanInv s base (processLoop s base initState) :=
    processLoop_inv s base (ScanInv s base)
      (fun st hlt h => procStep_inv s base st h hlt) initState
      (initState_inv s base)
  have hpos : (processLoop s base initState).pos = s.length :=
    processLoop_final s base initState (by simp [initState])
  refine ⟨?_, ?_, ?_⟩
  · exact endCurrentSlice_inv s base _ hloop
  · exact endCurrentSlice_current ..
  · rw [show (finalState s base).pos = (processLoop s base initState).pos
      from endCurrentSlice_pos ..]
    exact hpos

theorem finalState_src (s : List Char) (base : Nat)
    (hdg : degenFree s 0 = true) :
    InvSrc base (finalState s base) := by
  have hloop : ScanInv s base (processLoop s base initState)
      ∧ InvSrc base (processLoop s base initState)
      ∧ degenFree s (processLoop s base initState).pos = true := by
    refine processLoop_inv s base
      (fun st => ScanInv s base st ∧ InvSrc base st
        ∧ degenFree s st.pos = true) ?_ initState
      ⟨initState_inv s base, initState_src base, by
        simpa [initState] using hdg⟩
    intro st hlt hP
    obtain ⟨hI, hS, hD⟩ := hP
    obtain ⟨hd1, hd2⟩ := degenFree_step s st.pos hlt hD
    refine ⟨procStep_inv s base st hI hlt,
      procStep_src s base st hI hS hlt hd1, ?_⟩
    rw [procStep_pos]
    exact hd2
  exact endCurrentSlice_src s base _ hloop.1 hloop.2.1

/-- Region-level facts packaged for the script-level theorems. -/
theorem region_facts (s : List Char) (base : Nat) :
    (finalState s base).output.length = (finalState s base).tplPos
    ∧ chainFrom 0
        ((finalState s base).tplSlices.map (fun sl => sl.templated_slice))
        (finalState s base).tplPos = true
    ∧ (finalState s base).rawSlices.map (fun sl => sl.raw)
      = (finalState s base).tplSlices.map (fun sl =>
          pySlice s (sl.source_slice.1 - base) (sl.source_slice.2 - base))
    ∧ (∀ sl ∈ (finalState s base).tplSlices,
        sl.slice_type = SliceType.literal →
          pySlice (finalState s base).output
              sl.templated_slice.1 sl.templated_slice.2
            = pySlice s (sl.source_slice.1 - base)
                (sl.source_slice.2 - base))
    ∧ (∀ sl ∈ (finalState s base).tplSlices,
        sl.slice_type = SliceType.templated →
          sl.templated_slice.2 = sl.templated_slice.1
          ∨ (sl.templated_slice.2
              = sl.templated_slice.1 + PLACEHOLDER.length
             ∧ pySlice (finalState s base).output
                 sl.templated_slice.1 sl.templated_slice.2 = PLACEHOLDER))
    ∧ (∀ sl ∈ (finalState s base).tplSlices,
        base ≤ sl.source_slice.1
        ∧ sl.source_slice.2 ≤ base + s.length
        ∧ sl.templated_slice.2 ≤ (finalState s base).tplPos) := by
  obtain ⟨hI, hcn, hpos⟩ := finalState_inv s base
  have htc := hI.tpl_chain
  rw [tplEnd_none _ hcn] at htc
  refine ⟨hI.out_len, htc, hI.raw_eq, hI.lit_fid, hI.gen_ph, ?_⟩
  intro sl hsl
  obtain ⟨hb1, hb2, hb3⟩ := hI.bounds sl hsl
  rw [hpos] at hb2
  exact ⟨hb1, hb2, hb3⟩

theorem region_src_chain (s : List Char) (base : Nat)
    (hdg : degenFree s 0 = true) :
    chainFrom base
      ((finalState s base).tplSlices.map (fun sl => sl.source_slice))
      (base + s.length) = true := by
  obtain ⟨hI, hcn, hpos⟩ := finalState_inv s base
  have hsrc := finalState_src s base hdg
  unfold InvSrc at hsrc
  rw [srcEnd_none base _ hcn, hpos] at hsrc
  exact hsrc

/-! ## Script-level unfolding -/

theorem processSqlScript_eq (input : List Char) (tokens : List Token)
    (selStart : Nat) (semi : Option Nat)
    (hb : boundStatement tokens = some (selStart, semi)) :
    processSqlScript input tokens = Except.ok
      { source_str := input,
        templated_str := (processSelectStatement
          (pySlice input selStart (semi.getD input.length)) selStart).1,
        sliced_file :=
          (if 0 < selStart then
            [{ slice_type := .templated, source_slice := (0, selStart),
               templated_slice := (0, 0) }]
           else [])
          ++ (processSelectStatement
              (pySlice input selStart (semi.getD input.length))
              selStart).2.2
          ++ (if semi.getD input.length < input.length then
            [{ slice_type := .templated,
               source_slice := (semi.getD input.length, input.length),
               templated_slice :=
                 ((processSelectStatement (pySlice input selStart
                     (semi.getD input.length)) selStart).1.length,
                  (processSelectStatement (pySlice input selStart
                     (semi.getD input.length)) selStart).1.length) }]
           else []),
        raw_sliced :=
          (if 0 < selStart then
            [{ raw := pySlice input 0 selStart, slice_type := .templated,
               source_idx := 0 }]
           else [])
          ++ (processSelectStatement
              (pySlice input selStart (semi.getD input.length))
              selStart).2.1
          ++ (if semi.getD input.length < input.length then
            [{ raw := pySlice input (semi.getD input.length) input.length,
               slice_type := .templated,
               source_idx := semi.getD input.length }]
           else []) } := by
  unfold processSqlScript
  rw [hb]
  cases semi <;> rfl

theorem boundStatement_none_iff (tokens : List Token) :
    boundStatement tokens = none
      ↔ ∀ tok ∈ tokens, tok.token_type ≠ TokenType.SELECT := by
  induction tokens with
  | nil => simp [boundStatement]
  | cons tok rest ih =>
    unfold boundStatement
    by_cases hsel : tok.token_type = TokenType.SELECT
    · simp [hsel]
    · simp [hsel, ih]

/-! ## Claim theorems -/

/-- C5: `_process_sql_script` raises the skip-file condition
(`SQLFluffSkipFile`, the `NoRenderableStatement` of the specification) if
and only if the token sequence contains no SELECT token; and a SELECT
token exists if and only if the render returns a result. -/
theorem c5_skip_iff (input : List Char) (tokens : List Token) :
    (processSqlScript input tokens = Except.error noSelectMsg
      ↔ ∀ tok ∈ tokens, tok.token_type ≠ TokenType.SELECT)
    ∧ ((∃ tok ∈ tokens, tok.token_type = TokenType.SELECT)
      ↔ ∃ tf, processSqlScript input tokens = Except.ok tf) := by
  have herr : processSqlScript input tokens = Except.error noSelectMsg
      ↔ boundStatement tokens = none := by
    cases hbs : boundStatement tokens with
    | none =>
      unfold processSqlScript
      rw [hbs]
      simp
    | some p =>
      obtain ⟨selStart, semi⟩ := p
      rw [processSqlScript_eq input tokens selStart semi hbs]
      simp
  constructor
  · rw [herr]
    exact boundStatement_none_iff tokens
  · constructor
    · intro hex
      cases hbs : boundStatement tokens with
      | none =>
        obtain ⟨tok, htok, hsel⟩ := hex
        exact absurd hsel
          ((boundStatement_none_iff tokens).mp hbs tok htok)
      | some p =>
        obtain ⟨selStart, semi⟩ := p
        exact ⟨_, processSqlScript_eq input tokens selStart semi hbs⟩
    · intro hok
      obtain ⟨tf, htf⟩ := hok
      by_contra hno
      push_neg at hno
      have hnone : boundStatement tokens = none :=
        (boundStatement_none_iff tokens).mpr hno
      unfold processSqlScript at htf
      rw [hnone] at htf
      cases htf

/-- C9: the character scan of `_process_select_statement` terminates:
from any in-range cursor, one iteration strictly advances the cursor and
never moves it past end of input (also on an unterminated function-call
macro, where the parenthesis loop stops at end of input), and the whole
loop runs the cursor exactly to end of input. -/
theorem c9_termination (s : List Char) (base : Nat) (st : PState)
    (h : st.pos < s.length) :
    st.pos < (procStep s base st).pos
    ∧ (procStep s base st).pos ≤ s.length
    ∧ (processLoop s base st).pos = s.length :=
  ⟨(procStep_pos_lt s base st h).1, (procStep_pos_lt s base st h).2,
    processLoop_final s base st (Nat.le_of_lt h)⟩

def c9wstr : String := "a@f(b"

def c9wsrc : List Char := c9wstr.data

/-- Witness for C9 at the concrete region `"a@f(b"` from the initial
state. -/
theorem c9_witness :
    initState.pos < (procStep c9wsrc 0 initState).pos
    ∧ (procStep c9wsrc 0 initState).pos ≤ c9wsrc.length
    ∧ (processLoop c9wsrc 0 initState).pos = c9wsrc.length :=
  c9_termination c9wsrc 0 initState (by decide)

/-- C7 (amended): immediately after an `@` sigil the scanner consumes as
the macro identifier exactly the maximal run of characters that are
alphanumeric in the sense of Python's Unicode-aware `str.isalnum`
(modelled by `pyIsAlnum`) or underscore; the character ending the run is
the first one that fails that test.  (The claim's "ASCII alphanumeric" is
wrong: Python's `str.isalnum` also accepts non-ASCII letters such as
`é`.) -/
theorem c7_amended (s : List Char) (st : PState) :
    (∀ i, st.pos ≤ i → i < (copyIdent s st).pos →
      isIdentChar (s.getD i ' ') = true)
    ∧ ((copyIdent s st).pos < s.length →
      isIdentChar (s.getD (copyIdent s st).pos ' ') = false) := by
  constructor
  · intro i h1 h2
    rw [copyIdent_pos] at h2
    have hsat := takeWhile_sat isIdentChar (s.drop st.pos) ' '
      (i - st.pos) (by omega)
    rw [getD_drop_eq, show st.pos + (i - st.pos) = i by omega] at hsat
    exact hsat
  · intro hlt
    rw [copyIdent_pos] at hlt ⊢
    have hlen : ((s.drop st.pos).takeWhile isIdentChar).length
        < (s.drop st.pos).length := by
      simp only [List.length_drop]
      omega
    have hstop := takeWhile_stop isIdentChar (s.drop st.pos) ' ' hlen
    rw [getD_drop_eq] at hstop
    exact hstop

def c7wstr : String := "ab("

def c7wsrc : List Char := c7wstr.data

/-- Witness for the amended C7 on the region `"ab("` at cursor 0: the
characters inside the consumed run satisfy the identifier test and the
character at the stopping position fails it. -/
theorem c7_witness :
    isIdentChar (c7wsrc.getD 0 ' ') = true
    ∧ isIdentChar (c7wsrc.getD (copyIdent c7wsrc initState).pos ' ')
        = false :=
  ⟨(c7_amended c7wsrc initState).1 0 (by decide) (by decide),
   (c7_amended c7wsrc initState).2 (by decide)⟩

/-- C4: for every successful render, every LITERAL mapped slice satisfies
`rendered_text[rendered_range] == source_text[source_range]`. -/
theorem c4_literal_fidelity (input : List Char) (tokens : List Token)
    (tf : TemplatedFile) (hwf : boundsWF input tokens = true)
    (hok : processSqlScript input tokens = Except.ok tf) :
    ∀ sl ∈ tf.sliced_file, sl.slice_type = SliceType.literal →
      pySlice tf.templated_str sl.templated_slice.1 sl.templated_slice.2
        = pySlice tf.source_str sl.source_slice.1 sl.source_slice.2 := by
  cases hbs : boundStatement tokens with
  | none =>
    unfold processSqlScript at hok
    rw [hbs] at hok
    cases hok
  | some p =>
  obtain ⟨selStart, semi⟩ := p
  rw [processSqlScript_eq input tokens selStart semi hbs] at hok
  simp only [Except.ok.injEq] at hok
  subst hok
  unfold boundsWF at hwf
  rw [hbs] at hwf
  simp only [Bool.and_eq_true, Nat.ble_eq] at hwf
  obtain ⟨hse, hel⟩ := hwf
  intro sl hsl hty
  dsimp only at hsl ⊢
  rcases List.mem_append.mp hsl with h1 | hpost
  · rcases List.mem_append.mp h1 with hpre | hreg
    · split at hpre
      · rw [List.mem_singleton] at hpre
        subst hpre
        dsimp only at hty
        exact SliceType.noConfusion hty
      · cases hpre
    · rw [processSelectStatement_eq] at hreg ⊢
      dsimp only at hreg ⊢
      obtain ⟨holen, htc, hraw, hfid, hget, hbnd⟩ := region_facts
        (pySlice input selStart (semi.getD input.length)) selStart
      obtain ⟨hb1, hb2, hb3⟩ := hbnd sl hreg
      have hslen : (pySlice input selStart (semi.getD input.length)).length
          = semi.getD input.length - selStart :=
        pySlice_len input selStart _ hel
      rw [hfid sl hreg hty]
      exact pySlice_pySlice input selStart (semi.getD input.length)
        sl.source_slice.1 sl.source_slice.2 hb1 (by omega)
  · split at hpost
    · rw [List.mem_singleton] at hpost
      subst hpost
      dsimp only at hty
      exact SliceType.noConfusion hty
    · cases hpost

def c4wstr : String := "ab SELECT 1; cd"

def c4wsrc : List Char := c4wstr.data

def c4wtoks : List Token :=
  [{ token_type := .OTHER, start := 0, tokEnd := 1 },
   { token_type := .SELECT, start := 3, tokEnd := 8 },
   { token_type := .OTHER, start := 10, tokEnd := 10 },
   { token_type := .SEMICOLON, start := 11, tokEnd := 11 },
   { token_type := .OTHER, start := 13, tokEnd := 14 }]

/-- Witness for C4 on `"ab SELECT 1; cd"`: the literal slice covering the
whole bounded region renders to exactly the source bytes. -/
theorem c4_witness :
    pySlice (getOk (processSqlScript c4wsrc c4wtoks) emptyTF).templated_str
        0 8
      = pySlice (getOk (processSqlScript c4wsrc c4wtoks) emptyTF).source_str
        3 11 :=
  c4_literal_fidelity c4wsrc c4wtoks
    (getOk (processSqlScript c4wsrc c4wtoks) emptyTF) (by decide) (by rfl)
    { slice_type := .literal, source_slice := (3, 11),
      templated_slice := (0, 8) } (by decide) (by decide)

/-- C8 (amended): for every successful render, every GENERATED mapped
slice with nonzero rendered length renders to exactly the fixed
placeholder `'PLACEHOLDER'` (13 characters).  The rendered bytes are
synthetic in that sense, but they are a verbatim copy of the source bytes
in the corner case where the argument text is itself `'PLACEHOLDER'`. -/
theorem c8_amended (input : List Char) (tokens : List Token)
    (tf : TemplatedFile)
    (hok : processSqlScript input tokens = Except.ok tf) :
    ∀ sl ∈ tf.sliced_file, sl.slice_type = SliceType.templated →
      sl.templated_slice.1 < sl.templated_slice.2 →
      pySlice tf.templated_str sl.templated_slice.1 sl.templated_slice.2
          = PLACEHOLDER
      ∧ sl.templated_slice.2 = sl.templated_slice.1 + PLACEHOLDER.length := by
  cases hbs : boundStatement tokens with
  | none =>
    unfold processSqlScript at hok
    rw [hbs] at hok
    cases hok
  | some p =>
  obtain ⟨selStart, semi⟩ := p
  rw [processSqlScript_eq input tokens selStart semi hbs] at hok
  simp only [Except.ok.injEq] at hok
  subst hok
  intro sl hsl hty hlt
  dsimp only at hsl hlt ⊢
  rcases List.mem_append.mp hsl with h1 | hpost
  · rcases List.mem_append.mp h1 with hpre | hreg
    · split at hpre
      · rw [List.mem_singleton] at hpre
        subst hpre
        dsimp only at hlt
        omega
      · cases hpre
    · rw [processSelectStatement_eq] at hreg ⊢
      dsimp only at hreg ⊢
      obtain ⟨holen, htc, hraw, hfid, hget, hbnd⟩ := region_facts
        (pySlice input selStart (semi.getD input.length)) selStart
      rcases hget sl hreg hty with hz | ⟨hlen, hcont⟩
      · omega
      · exact ⟨hcont, hlen⟩
  · split at hpost
    · rw [List.mem_singleton] at hpost
      subst hpost
      dsimp only at hlt
      omega
    · cases hpost

def c8wstr : String := "SELECT @f(a)"

def c8wsrc : List Char := c8wstr.data

def c8wtoks : List Token :=
  [{ token_type := .SELECT, start := 0, tokEnd := 5 }]

/-- Witness for the amended C8 on `"SELECT @f(a)"`: the argument slice
renders to exactly the placeholder. -/
theorem c8_witness :
    pySlice (getOk (processSqlScript c8wsrc c8wtoks) emptyTF).templated_str
        9 22 = PLACEHOLDER
    ∧ (22 : Nat) = 9 + PLACEHOLDER.length :=
  c8_amended c8wsrc c8wtoks
    (getOk (processSqlScript c8wsrc c8wtoks) emptyTF) (by rfl)
    { slice_type := .templated, source_slice := (10, 11),
      templated_slice := (9, 22) } (by decide) (by decide) (by decide)

/-- C6: for every successful render the rendered text is exactly the text
produced for the bounded region `[select_start, select_end)` — nothing
outside the region reaches the output — and the non-empty pre-region and
post-region each contribute exactly one GENERATED slice with zero
rendered length (the first and last slice respectively). -/
theorem c6_assembly (input : List Char) (tokens : List Token)
    (selStart : Nat) (semi : Option Nat) (tf : TemplatedFile)
    (hb : boundStatement tokens = some (selStart, semi))
    (hok : processSqlScript input tokens = Except.ok tf) :
    tf.templated_str = (processSelectStatement
      (pySlice input selStart (semi.getD input.length)) selStart).1
    ∧ (0 < selStart → tf.sliced_file.head? = some
        { slice_type := .templated, source_slice := (0, selStart),
          templated_slice := (0, 0) })
    ∧ (semi.getD input.length < input.length →
        tf.sliced_file.getLast? = some
          { slice_type := .templated,
            source_slice := (semi.getD input.length, input.length),
            templated_slice := (tf.templated_str.length,
              tf.templated_str.length) }) := by
  rw [processSqlScript_eq input tokens selStart semi hb] at hok
  simp only [Except.ok.injEq] at hok
  subst hok
  refine ⟨rfl, ?_, ?_⟩
  · intro hpre
    dsimp only
    rw [if_pos hpre]
    rfl
  · intro hpost
    dsimp only
    rw [if_pos hpost]
    exact List.getLast?_concat ..

theorem chainFrom_opt (c : Prop) [Decidable c] (a b : Nat) (r : Nat × Nat)
    (h1 : c → r.1 = a ∧ r.1 ≤ r.2 ∧ r.2 = b) (h2 : ¬c → a = b) :
    chainFrom a (if c then [r] else []) b = true := by
  split
  · next hc =>
    obtain ⟨e1, e2, e3⟩ := h1 hc
    rw [chainFrom_cons]
    refine ⟨e1, e2, ?_⟩
    rw [chainFrom_nil]
    exact e3
  · next hc =>
    rw [chainFrom_nil]
    exact h2 hc

/-- C1 (amended): for every render that returns successfully and whose
bounded region is degeneracy-free (no function-call macro's argument scan
begins at end of input — equivalently, the region does not end with a
macro's opening parenthesis), the source ranges of the mapped slices,
concatenated in list order, exactly cover `[0, len(source_text))` with no
gaps and no overlaps (equivalently, concatenating the raw slices' text
reproduces `source_text`), and the rendered ranges exactly cover
`[0, len(rendered_text))` contiguously and non-decreasingly. -/
theorem c1_amended (input : List Char) (tokens : List Token)
    (selStart : Nat) (semi : Option Nat) (tf : TemplatedFile)
    (hb : boundStatement tokens = some (selStart, semi))
    (hwf : boundsWF input tokens = true)
    (hdg : degenFree (pySlice input selStart (semi.getD input.length)) 0
      = true)
    (hok : processSqlScript input tokens = Except.ok tf) :
    chainFrom 0 (tf.sliced_file.map (fun sl => sl.source_slice))
        tf.source_str.length = true
    ∧ chainFrom 0 (tf.sliced_file.map (fun sl => sl.templated_slice))
        tf.templated_str.length = true
    ∧ (tf.raw_sliced.map (fun sl => sl.raw)).flatten = tf.source_str := by
  rw [processSqlScript_eq input tokens selStart semi hb] at hok
  simp only [Except.ok.injEq] at hok
  subst hok
  unfold boundsWF at hwf
  rw [hb] at hwf
  simp only [Bool.and_eq_true, Nat.ble_eq] at hwf
  obtain ⟨hse, hel⟩ := hwf
  obtain ⟨holen, htc, hraw, hfid, hget, hbnd⟩ := region_facts
    (pySlice input selStart (semi.getD input.length)) selStart
  have hslen : (pySlice input selStart (semi.getD input.length)).length
      = semi.getD input.length - selStart := pySlice_len input selStart _ hel
  have hsrc := region_src_chain
    (pySlice input selStart (semi.getD input.length)) selStart hdg
  rw [show selStart
      + (pySlice input selStart (semi.getD input.length)).length
      = semi.getD input.length by omega] at hsrc
  rw [processSelectStatement_eq]
  dsimp only
  have hchainS : chainFrom 0
      ((if 0 < selStart then [((0 : Nat), selStart)] else [])
        ++ ((finalState (pySlice input selStart (semi.getD input.length))
              selStart).tplSlices.map (fun sl => sl.source_slice)
        ++ (if semi.getD input.length < input.length then
              [(semi.getD input.length, input.length)] else [])))
      input.length = true := by
    refine chainFrom_append _ _ 0 selStart input.length ?_
      (chainFrom_append _ _ selStart (semi.getD input.length) input.length
        hsrc ?_)
    · exact chainFrom_opt _ 0 selStart (0, selStart)
        (fun _ => ⟨rfl, by omega, rfl⟩) (fun hc => by omega)
    · exact chainFrom_opt _ (semi.getD input.length) input.length
        (semi.getD input.length, input.length)
        (fun _ => ⟨rfl, by omega, rfl⟩) (fun hc => by omega)
  have hregion_raw : (finalState
        (pySlice input selStart (semi.getD input.length))
        selStart).rawSlices.map (fun sl => sl.raw)
      = (finalState (pySlice input selStart (semi.getD input.length))
          selStart).tplSlices.map (fun sl =>
            pySlice input sl.source_slice.1 sl.source_slice.2) := by
    rw [hraw]
    refine List.map_congr_left ?_
    intro sl hsl
    obtain ⟨hb1, hb2, hb3⟩ := hbnd sl hsl
    exact pySlice_pySlice input selStart (semi.getD input.length)
      sl.source_slice.1 sl.source_slice.2 hb1 (by omega)
  refine ⟨?_, ?_, ?_⟩
  · simp only [List.map_append,
      apply_ite (List.map (fun sl : TemplatedFileSlice => sl.source_slice)),
      List.map_cons, List.map_nil]
    rw [← List.append_assoc] at hchainS
    exact hchainS
  · simp only [List.map_append,
      apply_ite
        (List.map (fun sl : TemplatedFileSlice => sl.templated_slice)),
      List.map_cons, List.map_nil]
    rw [← holen] at htc
    refine chainFrom_append _ _ 0
      ((finalState (pySlice input selStart (semi.getD input.length))
        selStart).output.length) _
      (chainFrom_append _ _ 0 0 _
        (chainFrom_opt _ 0 0 (0, 0)
          (fun _ => ⟨rfl, Nat.le_refl _, rfl⟩) (fun _ => rfl))
        htc) ?_
    exact chainFrom_opt _ _ _ _ (fun _ => ⟨rfl, Nat.le_refl _, rfl⟩)
      (fun _ => rfl)
  · have hflat := chainFrom_flatten input _ 0 input.length hchainS
      (Nat.le_refl _)
    rw [pySlice_all] at hflat
    simp only [List.map_append,
      apply_ite (List.map (fun r : Nat × Nat => pySlice input r.1 r.2)),
      List.map_cons, List.map_nil, List.map_map, Function.comp] at hflat
    simp only [List.map_append,
      apply_ite (List.map (fun sl : RawFileSlice => sl.raw)),
      List.map_cons, List.map_nil, hregion_raw]
    rw [← List.append_assoc] at hflat
    exact hflat

def c1wstr : String := "xy SELECT @a(b); zw"

def c1wsrc : List Char := c1wstr.data

def c1wtoks : List Token :=
  [{ token_type := .OTHER, start := 0, tokEnd := 1 },
   { token_type := .SELECT, start := 3, tokEnd := 8 },
   { token_type := .SEMICOLON, start := 15, tokEnd := 15 },
   { token_type := .OTHER, start := 17, tokEnd := 18 }]

/-- Witness for the amended C1 on `"xy SELECT @a(b); zw"` (pre-region,
macro call, and post-region all present). -/
theorem c1_witness :
    chainFrom 0
        ((getOk (processSqlScript c1wsrc c1wtoks) emptyTF).sliced_file.map
          (fun sl => sl.source_slice))
        (getOk (processSqlScript c1wsrc c1wtoks) emptyTF).source_str.length
      = true
    ∧ chainFrom 0
        ((getOk (processSqlScript c1wsrc c1wtoks) emptyTF).sliced_file.map
          (fun sl => sl.templated_slice))
        (getOk (processSqlScript c1wsrc c1wtoks)
          emptyTF).templated_str.length = true
    ∧ ((getOk (processSqlScript c1wsrc c1wtoks) emptyTF).raw_sliced.map
        (fun sl => sl.raw)).flatten
      = (getOk (processSqlScript c1wsrc c1wtoks) emptyTF).source_str :=
  c1_amended c1wsrc c1wtoks 3 (some 15)
    (getOk (processSqlScript c1wsrc c1wtoks) emptyTF) (by rfl) (by decide)
    (by decide) (by rfl)

def c6wstr : String := "ab SELECT 1; cd"

def c6wsrc : List Char := c6wstr.data

def c6wtoks : List Token :=
  [{ token_type := .OTHER, start := 0, tokEnd := 1 },
   { token_type := .SELECT, start := 3, tokEnd := 8 },
   { token_type := .OTHER, start := 10, tokEnd := 10 },
   { token_type := .SEMICOLON, start := 11, tokEnd := 11 },
   { token_type := .OTHER, start := 13, tokEnd := 14 }]

/-- Witness for C6 on `"ab SELECT 1; cd"`: the rendered text is the
region's rendered text, and the pre- and post-region slices are the
zero-rendered-length first and last slices. -/
theorem c6_witness :
    (getOk (processSqlScript c6wsrc c6wtoks) emptyTF).templated_str
      = (processSelectStatement
          (pySlice c6wsrc 3 ((some 11 : Option Nat).getD c6wsrc.length))
          3).1
    ∧ (getOk (processSqlScript c6wsrc c6wtoks) emptyTF).sliced_file.head?
      = some { slice_type := .templated, source_slice := (0, 3),
               templated_slice := (0, 0) }
    ∧ (getOk (processSqlScript c6wsrc c6wtoks) emptyTF).sliced_file.getLast?
      = some { slice_type := .templated, source_slice := (11, 15),
               templated_slice :=
                 ((getOk (processSqlScript c6wsrc c6wtoks)
                    emptyTF).templated_str.length,
                  (getOk (processSqlScript c6wsrc c6wtoks)
                    emptyTF).templated_str.length) } :=
  ⟨(c6_assembly c6wsrc c6wtoks 3 (some 11)
      (getOk (processSqlScript c6wsrc c6wtoks) emptyTF) (by rfl)
      (by rfl)).1,
   (c6_assembly c6wsrc c6wtoks 3 (some 11)
      (getOk (processSqlScript c6wsrc c6wtoks) emptyTF) (by rfl)
      (by rfl)).2.1 (by decide),
   (c6_assembly c6wsrc c6wtoks 3 (some 11)
      (getOk (processSqlScript c6wsrc c6wtoks) emptyTF) (by rfl)
      (by rfl)).2.2 (by decide)⟩

def c5wstr : String := "UPDATE t SET x = 1"

def c5wsrc : List Char := c5wstr.data

def c5wtoks : List Token :=
  [{ token_type := .OTHER, start := 0, tokEnd := 5 },
   { token_type := .OTHER, start := 7, tokEnd := 7 },
   { token_type := .OTHER, start := 9, tokEnd := 11 },
   { token_type := .OTHER, start := 13, tokEnd := 13 },
   { token_type := .OTHER, start := 15, tokEnd := 15 },
   { token_type := .OTHER, start := 17, tokEnd := 17 }]

/-- Witness for C5 on a token list with no SELECT token: the render
raises the skip-file condition. -/
theorem c5_witness :
    processSqlScript c5wsrc c5wtoks = Except.error noSelectMsg :=
  (c5_skip_iff c5wsrc c5wtoks).1.mpr (by decide)
